import Mathlib

/-! Algebra8/sun: the `count` and `map` sequence primitives

A shallow embedding of `src/itertools.go` and `src/map.go`, and theorems about it.

Conventions of the embedding

* Go pointers to immutable numbers (`*starlark.Int`, `*starlark.Float`) are `Option`s of the
  number: `nil` is `none`. The code never writes through such a pointer, it only replaces it.
* `*countObject` is an address into a `Heap`; a `countIter` holds that address, so that several
  iterators of one object see one object.
* A Go `error` result is `Except Error`; a Go `panic` is `Except Panic` (the outer layer where a
  function can do both).
* What the host library (go.starlark.net) supplies and this repository only calls is either
  transcribed from the library (`UnpackPositionalArgs`, `AsInt`, the list iterator) or taken as
  a parameter (`HostNum`: float arithmetic and rendering; `Host`: sub-iterators and `Call`).
-/

namespace Sun

/-! ## Host values -/

/-- An IEEE-754 double, as its bit pattern. Its arithmetic is a parameter (`HostNum`). -/
structure Float64 where
  bits : Nat
deriving DecidableEq, Repr

/-- The dynamic values (`starlark.Value`) that the embedded code distinguishes.
`intPtr` and `floatPtr` are values of dynamic type `*starlark.Int` and `*starlark.Float`:
`countIter.Next` stores the pointer `c.co.cnt.i_` (or `f_`) itself into `*p`.
`count a` is the `*countObject` at address `a`. -/
inductive Value where
  | none
  | bool (b : Bool)
  | int (n : Int)
  | float (x : Float64)
  | string (s : String)
  | intPtr (n : Int)
  | floatPtr (x : Float64)
  | list (elems : List Value)
  | builtin (name : String)
  | count (co : Nat)
deriving Repr

/-- Method `Type()` of a value. -/
def Value.Type : Value → String
  | .none => "NoneType"
  | .bool _ => "bool"
  | .int _ => "int"
  | .float _ => "float"
  | .string _ => "string"
  | .intPtr _ => "int"
  | .floatPtr _ => "float"
  | .list _ => "list"
  | .builtin _ => "builtin_function_or_method"
  | .count _ => "itertools.count"

/-- The type assertion `v.(starlark.Callable)` succeeds. -/
def Value.isCallable : Value → Bool
  | .builtin _ => true
  | _ => false

/-- The type assertion `v.(starlark.Iterable)` succeeds. -/
def Value.isIterable : Value → Bool
  | .list _ => true
  | .count _ => true
  | _ => false

/-- The `error` values the code builds with `fmt.Errorf`, one constructor per format string;
the constructor arguments are the values formatted into the message. -/
inductive Error where
  | text (msg : String)
  | wantFloatOrInt (got : String)
  | wantCallable (got : String)
  | wantIterable (got : String)
  | unexpectedKwargs (fnname : String)
  | tooFewArgs (fnname : String) (got : Nat) (atleast : Bool) (min : Nat)
  | tooManyArgs (fnname : String) (got : Nat) (atmost : Bool) (max : Nat)
  | forParameter (fnname : String) (i : Nat) (inner : Error)
  | countArgs (args : List Value)
  | outOfRange (x : Int) (bits : Nat)
deriving Repr

/-- A Go run-time panic, with what was passed to `panic` (or the run-time error). -/
inductive Panic where
  | runtime (msg : String)
  | error (e : Error)
deriving Repr

/-- Number primitives of the host that the code calls.
`fadd` is `float64 + float64`, `ofInt` is `starlark.Int.Float()`, `fstr` is
`starlark.Float.String()`, `feq` is Go `==` on `starlark.Float`, `ieq` is Go `==` on the
`starlark.Int` struct, `intBits` is the width of Go `int` (32 or 64). -/
structure HostNum where
  fadd : Float64 → Float64 → Float64
  ofInt : Int → Float64
  fstr : Float64 → String
  feq : Float64 → Float64 → Bool
  ieq : Int → Int → Bool
  intBits : Nat

/-- Function `starlark.AsInt(x, &y)` for `y` a Go `int` of `bits` bits: the value, or the
out-of-range error when `x` does not fit `int64` or, for a narrower `int`, its signed range. -/
def AsInt (bits : Nat) (x : Int) : Except Error Int :=
  if -((2 : Int) ^ 63) ≤ x ∧ x < (2 : Int) ^ 63 ∧
      (64 ≤ bits ∨ (-((2 : Int) ^ (bits - 1)) ≤ x ∧ x < (2 : Int) ^ (bits - 1))) then
    .ok x
  else
    .error (.outOfRange x bits)

/-! ## floatOrInt (itertools.go) -/

/-- Struct `floatOrInt`: two nullable pointers. -/
structure floatOrInt where
  f_ : Option Float64 := none
  i_ : Option Int := none
deriving DecidableEq, Repr

/-- Method `(p *floatOrInt) Unpack(v)`: the receiver after the call, or the error. -/
def floatOrInt.Unpack (p : floatOrInt) (v : Value) : Except Error floatOrInt :=
  match v with
  | .int n =>
    if p.f_ ≠ none then .error (.text "floatOrInt must have default initialization")
    else .ok { p with i_ := some n }
  | .float x =>
    if p.i_ ≠ none then .error (.text "floatOrInt must have default initialization")
    else .ok { p with f_ := some x }
  | v => .error (.wantFloatOrInt v.Type)

/-- Method `(fi *floatOrInt) add(n)`: the receiver after the call, or the error. The four
cases are tried in the order of the `switch`. -/
def floatOrInt.add (N : HostNum) (fi n : floatOrInt) : Except Error floatOrInt :=
  match fi.i_, n.i_ with
  | some a, some b => .ok { fi with i_ := some (a + b) }
  | _, _ =>
    match fi.i_, n.f_ with
    | some a, some y => .ok { f_ := some (N.fadd (N.ofInt a) y), i_ := none }
    | _, _ =>
      match fi.f_, n.i_ with
      | some x, some b => .ok { fi with f_ := some (N.fadd x (N.ofInt b)) }
      | _, _ =>
        match fi.f_, n.f_ with
        | some x, some y => .ok { fi with f_ := some (N.fadd x y) }
        | _, _ => .error (.text "error with addition: types are not int, float combos")

/-- Method `(fi floatOrInt) string()`; `Int.String()` is the decimal rendering. -/
def floatOrInt.string (N : HostNum) (fi : floatOrInt) : String :=
  match fi.i_ with
  | some a => toString a
  | none =>
    match fi.f_ with
    | some x => N.fstr x
    | none => ""

/-- The argument of `eq`, an `interface{}`: a `starlark.Int`, a `starlark.Float`, a Go `int`,
or anything else. -/
inductive EqArg where
  | Int (v : Int)
  | Float (v : Float64)
  | goInt (v : Int)
  | other

/-- Method `(fi *floatOrInt) eq(v)`; it panics when `AsInt` fails. -/
def floatOrInt.eq (N : HostNum) (fi : floatOrInt) (v : EqArg) : Except Panic Bool :=
  match v with
  | .Int v =>
    match fi.i_ with
    | some a => .ok (N.ieq a v)
    | none => .ok false
  | .Float v =>
    match fi.f_ with
    | some x => .ok (N.feq x v)
    | none => .ok false
  | .goInt v =>
    match fi.i_ with
    | none => .ok false
    | some a =>
      match AsInt N.intBits a with
      | .error e => .error (.error e)
      | .ok x => .ok (decide (x = v))
  | .other => .ok false

/-! ## countObject and countIter (itertools.go) -/

/-- Struct `countObject`. -/
structure countObject where
  cnt : floatOrInt
  step : floatOrInt
  frozen : Bool := false
deriving DecidableEq, Repr

/-- The store of count objects: `objs a` is the object at address `a`, and `next` is the
address the next allocation returns. -/
structure Heap where
  objs : Nat → countObject
  next : Nat

/-- Allocation `&countObject{...}`: the new address and the store holding the object. -/
def Heap.alloc (h : Heap) (co : countObject) : Nat × Heap :=
  (h.next, { objs := Function.update h.objs h.next co, next := h.next + 1 })

/-- Assignment through a `*countObject`. -/
def Heap.set (h : Heap) (a : Nat) (co : countObject) : Heap :=
  { h with objs := Function.update h.objs a co }

/-- Method `(co *countObject) String()`; it panics when `eq` does. -/
def countObject.String (N : HostNum) (co : countObject) : Except Panic String :=
  match co.step.eq N (.goInt 1) with
  | .error e => .error e
  | .ok true => .ok ("count(" ++ co.cnt.string N ++ ")")
  | .ok false => .ok ("count(" ++ co.cnt.string N ++ ", " ++ co.step.string N ++ ")")

/-- Method `(co *countObject) Freeze()` on the object at address `a`. -/
def countObject.Freeze (a : Nat) (h : Heap) : Heap :=
  if !(h.objs a).frozen then h.set a { h.objs a with frozen := true } else h

/-- Struct `countIter`: the pointer to its object. -/
structure countIter where
  co : Nat
deriving DecidableEq, Repr

/-- Method `(co *countObject) Iterate()` on the object at address `a`. -/
def countObject.Iterate (a : Nat) : countIter :=
  { co := a }

/-- Method `(c *countIter) Next(p)`: `none` for `false`, `some v` for `true` with `*p = v`
(when neither pointer is set `*p` is left as it was, here `Value.none`), and the store after
the call; it panics when `add` fails. -/
def countIter.Next (N : HostNum) (c : countIter) (h : Heap) :
    Except Panic (Option Value × Heap) :=
  let co := h.objs c.co
  if co.frozen then .ok (none, h)
  else
    let p : Value :=
      match co.cnt.i_ with
      | some a => .intPtr a
      | none =>
        match co.cnt.f_ with
        | some x => .floatPtr x
        | none => .none
    match co.cnt.add N co.step with
    | .error e => .error (.error e)
    | .ok cnt => .ok (some p, h.set c.co { co with cnt := cnt })

/-- Method `(c *countIter) Done()`. -/
def countIter.Done (_c : countIter) (h : Heap) : Heap :=
  h

/-! ## Positional-argument unpacking (host library) -/

/-- A destination passed to `UnpackPositionalArgs`: a `*floatOrInt` (an `Unpacker`), a
`*starlark.Callable` or a `*starlark.Iterable`, with what it points to. -/
inductive Var where
  | unpacker (p : floatOrInt)
  | callable (f : Option Value)
  | iterable (it : Option Value)
deriving Repr

/-- Function `unpackOneArg(v, ptr)`: the destination after the assignment, or the error. -/
def unpackOneArg (v : Value) (ptr : Var) : Except Error Var :=
  match ptr with
  | .unpacker p =>
    match p.Unpack v with
    | .ok p => .ok (.unpacker p)
    | .error e => .error e
  | .callable _ =>
    if v.isCallable then .ok (.callable (some v)) else .error (.wantCallable v.Type)
  | .iterable _ =>
    if v.isIterable then .ok (.iterable (some v)) else .error (.wantIterable v.Type)

/-- The loop `for i, arg := range args` of `UnpackPositionalArgs`, at index `i`. The caller
has checked `len(args) <= len(vars)`; indexing `vars[i]` past the end is a run-time panic in
Go, reported here as the last case. -/
def unpackLoop (fnname : String) : Nat → List Value → List Var → Except Error (List Var)
  | _, [], vars => .ok vars
  | i, arg :: args, ptr :: vars =>
    match unpackOneArg arg ptr with
    | .error e => .error (.forParameter fnname (i + 1) e)
    | .ok p =>
      match unpackLoop fnname (i + 1) args vars with
      | .error e => .error e
      | .ok ps => .ok (p :: ps)
  | _, _ :: _, [] => .error (.text "index out of range")

/-- Function `starlark.UnpackPositionalArgs(fnname, args, kwargs, min, vars...)`: the destinations
after the call, or the error. -/
def UnpackPositionalArgs (fnname : String) (args : List Value) (kwargs : List (Value × Value))
    (min : Nat) (vars : List Var) : Except Error (List Var) :=
  if kwargs.length > 0 then .error (.unexpectedKwargs fnname)
  else
    let max := vars.length
    if args.length < min then .error (.tooFewArgs fnname args.length (decide (min < max)) min)
    else if args.length > max then
      .error (.tooManyArgs fnname args.length (decide (max > min)) max)
    else unpackLoop fnname 0 args vars

/-- Builtin `count_`: the new object (its address as a value) and the store, or the error. -/
def count_ (args : List Value) (kwargs : List (Value × Value)) (h : Heap) :
    Except Error (Value × Heap) :=
  match UnpackPositionalArgs "count" args kwargs 0 [.unpacker {}, .unpacker {}] with
  | .error _ => .error (.countArgs args)
  | .ok [.unpacker start, .unpacker step] =>
    let start := if start.f_ = none ∧ start.i_ = none then { start with i_ := some 0 } else start
    let step := if step.f_ = none ∧ step.i_ = none then { step with i_ := some 1 } else step
    let r := h.alloc { cnt := start, step := step }
    .ok (.count r.1, r.2)
  | .ok _ => .error (.text "unreachable: the two destinations keep their types")

/-! ## mapIter and mapObject (map.go) -/

/-- What `map.go` needs of the host, over a store `σ` and sub-iterators `ι` (a
`starlark.Iterator` with its own state): `Iterate` is `iterable.Iterate()`, `Next` is
`iter.Next(&x)` (`none` for `false`), `Done` is `iter.Done()`, and `Call` is
`starlark.Call(thread, function, args, nil)` with its value or error. Each returns the store
after the call, or panics. -/
structure Host (σ ι : Type) where
  Iterate : Value → σ → Except Panic (ι × σ)
  Next : ι → σ → Except Panic (Option Value × ι × σ)
  Done : ι → σ → Except Panic (ι × σ)
  Call : Option Value → List Value → σ → Except Panic (Except Error Value × σ)

/-- Struct `mapIter` (the `thread` field is the execution context inside `Host.Call`); a
`nil` callable is `none`. -/
structure mapIter (ι : Type) where
  function : Option Value
  iterators : List ι
  buf : List Value

/-- The loop `for _, iter := range f.iterators` of `mapIter.Next` over the iterators not yet
visited: whether it ran to its end (`false`: it returned at the first `Next` that gave
`false`), the iterators, `f.buf` and the store afterwards. -/
def mapIter.pull {σ ι : Type} (H : Host σ ι) :
    List ι → List Value → σ → Except Panic (Bool × List ι × List Value × σ)
  | [], buf, s => .ok (true, [], buf, s)
  | iter :: rest, buf, s =>
    match H.Next iter s with
    | .error e => .error e
    | .ok (none, iter1, s1) => .ok (false, iter1 :: rest, buf, s1)
    | .ok (some x, iter1, s1) =>
      match mapIter.pull H rest (buf ++ [x]) s1 with
      | .error e => .error e
      | .ok (b, rest1, buf1, s2) => .ok (b, iter1 :: rest1, buf1, s2)

/-- Method `(f *mapIter) Next(p)`: `none` for `false`, `some v` for `true` with `*p = v`; the
iterator and the store after the call. -/
def mapIter.Next {σ ι : Type} (H : Host σ ι) (f : mapIter ι) (s : σ) :
    Except Panic (Option Value × mapIter ι × σ) :=
  match mapIter.pull H f.iterators [] s with
  | .error e => .error e
  | .ok (false, its, buf, s1) => .ok (none, { f with iterators := its, buf := buf }, s1)
  | .ok (true, its, buf, s1) =>
    match H.Call f.function buf s1 with
    | .error e => .error e
    | .ok (.error _, s2) => .ok (none, { f with iterators := its, buf := buf }, s2)
    | .ok (.ok v, s2) => .ok (some v, { f with iterators := its, buf := buf }, s2)

/-- The loop of `mapIter.Done` over the iterators not yet visited. -/
def mapIter.doneLoop {σ ι : Type} (H : Host σ ι) : List ι → σ → Except Panic (List ι × σ)
  | [], s => .ok ([], s)
  | iter :: rest, s =>
    match H.Done iter s with
    | .error e => .error e
    | .ok (iter1, s1) =>
      match mapIter.doneLoop H rest s1 with
      | .error e => .error e
      | .ok (rest1, s2) => .ok (iter1 :: rest1, s2)

/-- Method `(f *mapIter) Done()`. -/
def mapIter.Done {σ ι : Type} (H : Host σ ι) (f : mapIter ι) (s : σ) :
    Except Panic (mapIter ι × σ) :=
  match mapIter.doneLoop H f.iterators s with
  | .error e => .error e
  | .ok (its, s1) => .ok ({ f with iterators := its }, s1)

/-- Struct `mapObject` (without `thread`); a `nil` interface is `none`. -/
structure mapObject where
  function : Option Value
  iterables : List (Option Value)
deriving Repr

/-- The loop of `mapObject.Iterate` over the iterables not yet visited; calling `Iterate` on
a `nil` interface is a run-time panic. -/
def mapObject.iterateLoop {σ ι : Type} (H : Host σ ι) :
    List (Option Value) → σ → Except Panic (List ι × σ)
  | [], s => .ok ([], s)
  | none :: _, _ => .error (.runtime "invalid memory address or nil pointer dereference")
  | some v :: rest, s =>
    match H.Iterate v s with
    | .error e => .error e
    | .ok (iter, s1) =>
      match mapObject.iterateLoop H rest s1 with
      | .error e => .error e
      | .ok (iters, s2) => .ok (iter :: iters, s2)

/-- Method `(f mapObject) Iterate()`. -/
def mapObject.Iterate {σ ι : Type} (H : Host σ ι) (f : mapObject) (s : σ) :
    Except Panic (mapIter ι × σ) :=
  match mapObject.iterateLoop H f.iterables s with
  | .error e => .error e
  | .ok (iterators, s1) => .ok ({ function := f.function, iterators := iterators, buf := [] }, s1)

/-- What a destination of kind `*starlark.Iterable` points to (`nil` for another kind). -/
def Var.asIterable : Var → Option Value
  | .iterable it => it
  | _ => none

/-- Builtin `map_`, registered under the name `name` (`b.Name()`): a panic, or the returned
pair as the object or the error. `make([]starlark.Iterable, len(args)-1)` panics when the
length is negative. -/
def map_ (name : String) (args : List Value) (kwargs : List (Value × Value)) :
    Except Panic (Except Error mapObject) :=
  if args.length = 0 then .error (.runtime "makeslice: len out of range")
  else
    let iterables : List Var := List.replicate (args.length - 1) (.iterable none)
    let unpack : List Var := [.callable none] ++ iterables
    match UnpackPositionalArgs name args kwargs 2 unpack with
    | .error err => .ok (.error err)
    | .ok (.callable function :: iterables) =>
      .ok (.ok { function := function, iterables := iterables.map Var.asIterable })
    | .ok _ => .ok (.error (.text "unreachable: the destinations keep their types"))

/-! ## The host's iterators over lists and count objects -/

/-- A sub-iterator of the modelled host: the `*listIterator` of go.starlark.net (the list's
elements and the index `i`) or a `*countIter` of this repository. -/
inductive SubIter where
  | listIterator (l : List Value) (i : Nat)
  | countIter (c : countIter)
deriving Repr

/-- The host over the store of count objects, with `call` for `starlark.Call`. The list
iterator is transcribed from go.starlark.net: `Next` gives `l.elems[i]` and increments `i`
while `i < l.Len()`. A value that is not iterable has no `Iterate` method: reported as a
panic. -/
def starHost (N : HostNum)
    (call : Option Value → List Value → Heap → Except Panic (Except Error Value × Heap)) :
    Host Heap SubIter where
  Iterate := fun v h =>
    match v with
    | .list elems => .ok (.listIterator elems 0, h)
    | .count a => .ok (.countIter (countObject.Iterate a), h)
    | _ => .error (.runtime "not an iterable")
  Next := fun it h =>
    match it with
    | .listIterator l i =>
      match l.get? i with
      | some x => .ok (some x, .listIterator l (i + 1), h)
      | none => .ok (none, .listIterator l i, h)
    | .countIter c =>
      match countIter.Next N c h with
      | .error e => .error e
      | .ok (r, h1) => .ok (r, .countIter c, h1)
  Done := fun it h =>
    match it with
    | .listIterator l i => .ok (.listIterator l i, h)
    | .countIter c => .ok (.countIter c, countIter.Done c h)
  Call := call

/-! ## Drivers: repeated calls, as the host's loops make them -/

/-- The results of `n` consecutive `Next` calls on the count iterator `c`, and the store
afterwards. -/
def countIter.nexts (N : HostNum) (c : countIter) : Nat → Heap →
    Except Panic (List (Option Value) × Heap)
  | 0, h => .ok ([], h)
  | n + 1, h =>
    match countIter.Next N c h with
    | .error e => .error e
    | .ok (r, h1) =>
      match countIter.nexts N c n h1 with
      | .error e => .error e
      | .ok (rs, h2) => .ok (r :: rs, h2)

/-- The results of `Next` calls made on two count iterators in the order `sched` (`false`:
the call is made on `c1`, `true`: on `c2`), and the store afterwards. -/
def countIter.interleave (N : HostNum) (c1 c2 : countIter) : List Bool → Heap →
    Except Panic (List (Option Value) × Heap)
  | [], h => .ok ([], h)
  | b :: sched, h =>
    match countIter.Next N (if b then c2 else c1) h with
    | .error e => .error e
    | .ok (r, h1) =>
      match countIter.interleave N c1 c2 sched h1 with
      | .error e => .error e
      | .ok (rs, h2) => .ok (r :: rs, h2)

/-- Up to `n` consecutive `Next` calls on a map iterator, stopping after the first call that
reports end-of-sequence: the values yielded in order, whether end-of-sequence was reported,
and the iterator and the store afterwards. -/
def mapIter.drain {σ ι : Type} (H : Host σ ι) : Nat → mapIter ι → σ →
    Except Panic (List Value × Bool × mapIter ι × σ)
  | 0, f, s => .ok ([], false, f, s)
  | n + 1, f, s =>
    match mapIter.Next H f s with
    | .error e => .error e
    | .ok (none, f1, s1) => .ok ([], true, f1, s1)
    | .ok (some v, f1, s1) =>
      match mapIter.drain H n f1 s1 with
      | .error e => .error e
      | .ok (vs, ended, f2, s2) => .ok (v :: vs, ended, f2, s2)

/-- The results of `n` consecutive `Next` calls on a map iterator (`none`: end-of-sequence),
and the iterator and the store afterwards. -/
def mapIter.nexts {σ ι : Type} (H : Host σ ι) : Nat → mapIter ι → σ →
    Except Panic (List (Option Value) × mapIter ι × σ)
  | 0, f, s => .ok ([], f, s)
  | n + 1, f, s =>
    match mapIter.Next H f s with
    | .error e => .error e
    | .ok (r, f1, s1) =>
      match mapIter.nexts H n f1 s1 with
      | .error e => .error e
      | .ok (rs, f2, s2) => .ok (r :: rs, f2, s2)

/-- The results of `Next` calls made on two map iterators in the order `sched` (`false`: the
call is made on the first, `true`: on the second): the results of the first, the results of
the second, and the two iterators and the store afterwards. -/
def mapIter.interleave {σ ι : Type} (H : Host σ ι) : List Bool → mapIter ι → mapIter ι → σ →
    Except Panic (List (Option Value) × List (Option Value) × mapIter ι × mapIter ι × σ)
  | [], f, g, s => .ok ([], [], f, g, s)
  | false :: sched, f, g, s =>
    match mapIter.Next H f s with
    | .error e => .error e
    | .ok (r, f1, s1) =>
      match mapIter.interleave H sched f1 g s1 with
      | .error e => .error e
      | .ok (rs, qs, f2, g2, s2) => .ok (r :: rs, qs, f2, g2, s2)
  | true :: sched, f, g, s =>
    match mapIter.Next H g s with
    | .error e => .error e
    | .ok (q, g1, s1) =>
      match mapIter.interleave H sched f g1 s1 with
      | .error e => .error e
      | .ok (rs, qs, f2, g2, s2) => .ok (rs, q :: qs, f2, g2, s2)

/-- Each iterator of the list, called once in declared order with `next` from store `s`,
gives a value: the values in order, the iterators and the store afterwards. -/
inductive mapIter.Pulled {σ ι : Type} (next : ι → σ → Except Panic (Option Value × ι × σ)) :
    List ι → σ → List Value → List ι → σ → Prop where
  | nil (s : σ) : mapIter.Pulled next [] s [] [] s
  | cons {iter iter1 : ι} {s s1 s2 : σ} {x : Value} {rest rest1 : List ι} {xs : List Value} :
      next iter s = .ok (some x, iter1, s1) →
      mapIter.Pulled next rest s1 xs rest1 s2 →
      mapIter.Pulled next (iter :: rest) s (x :: xs) (iter1 :: rest1) s2

/-- The elements that `Next` calls have taken from a list iterator so far (none for a count
iterator, whose elements are not stored). -/
def SubIter.pulled : SubIter → List Value
  | .listIterator l i => l.take i
  | .countIter _ => []

/-- The sub-iterator is a list iterator. -/
def SubIter.isList : SubIter → Bool
  | .listIterator _ _ => true
  | .countIter _ => false

/-- List iterators at index `k`, one per list. -/
def listIters (ss : List (List Value)) (k : Nat) : List SubIter :=
  ss.map (fun l => SubIter.listIterator l k)

/-- The `k`-th element of each list, in the order of the lists. -/
def row (ss : List (List Value)) (k : Nat) : List Value :=
  ss.map (fun l => l.getD k Value.none)

/-- The map object of callable `fn` over the given lists. -/
def mapOfLists (fn : Value) (ss : List (List Value)) : mapObject :=
  { function := some fn, iterables := ss.map (fun l => some (Value.list l)) }

/-- The count object with integer current value `a` and integer step `b`. -/
def intCount (a b : Int) (frozen : Bool) : countObject :=
  { cnt := { i_ := some a }, step := { i_ := some b }, frozen := frozen }

/-- The value is a `starlark.Int` or a `starlark.Float`. -/
def Value.isIntOrFloat : Value → Bool
  | .int _ => true
  | .float _ => true
  | _ => false

/-- A host number instance for examples on integers and lists; its float operations are
placeholders that such examples never reach. -/
def refNum : HostNum :=
  { fadd := fun x _ => x, ofInt := fun _ => { bits := 0 }, fstr := fun _ => "",
    feq := fun x y => decide (x = y), ieq := fun a b => decide (a = b), intBits := 64 }

/-- A store in which nothing has been allocated. -/
def emptyHeap : Heap :=
  { objs := fun _ => intCount 0 1 false, next := 0 }

/-- The host call of a callable that computes `f` of its arguments, never fails and leaves
the store alone. -/
def pureCall (f : List Value → Value) :
    Option Value → List Value → Heap → Except Panic (Except Error Value × Heap) :=
  fun _ args h => .ok (.ok (f args), h)

/-- The sum of the integers among the arguments, as an example callable `add`. -/
def sumInts (args : List Value) : Value :=
  .int (args.foldl (fun acc v => match v with | .int n => acc + n | _ => acc) 0)

/-- The first argument, as an example callable. -/
def firstArg (args : List Value) : Value :=
  args.headD Value.none

/-- Exactly one of the two pointers of the union is set. -/
def floatOrInt.exactlyOne (fi : floatOrInt) : Bool :=
  xor fi.f_.isSome fi.i_.isSome

/-- The union the factory is to hold for an argument: the argument's number when it is
given (an integer or a float), and the exact integer `dflt` when it is not given. -/
def floatOrInt.ofArg (dflt : Int) : Option Value → floatOrInt
  | none => { i_ := some dflt }
  | some (.int n) => { i_ := some n }
  | some (.float x) => { f_ := some x }
  | some _ => {}

/-- The value is of float kind: a `starlark.Float` or a pointer to one. -/
def Value.isFloatKind : Value → Bool
  | .float _ => true
  | .floatPtr _ => true
  | _ => false

/-- The value is an exact integer: a `starlark.Int` or a pointer to one. -/
def Value.isIntKind : Value → Bool
  | .int _ => true
  | .intPtr _ => true
  | _ => false

/-- The unions of the claim on the variant invariant: the result of one successful `Unpack`
into a default-initialised union, and every result of `add` on such unions. -/
inductive floatOrInt.Reachable (N : HostNum) : floatOrInt → Prop where
  | unpack (v : Value) (p : floatOrInt) :
      floatOrInt.Unpack {} v = .ok p → floatOrInt.Reachable N p
  | add (fi n r : floatOrInt) :
      floatOrInt.Reachable N fi → floatOrInt.Reachable N n → floatOrInt.add N fi n = .ok r →
      floatOrInt.Reachable N r

/-- The count objects the code can reach: the object a successful `count_` call builds, and
that object after any `Next` calls on its iterators and any `Freeze` calls. -/
inductive countObject.Reachable (N : HostNum) : countObject → Prop where
  | built (args : List Value) (kwargs : List (Value × Value)) (h h1 : Heap) (a : Nat) :
      count_ args kwargs h = .ok (.count a, h1) → countObject.Reachable N (h1.objs a)
  | next (c : countIter) (h h1 : Heap) (r : Option Value) :
      countObject.Reachable N (h.objs c.co) → countIter.Next N c h = .ok (r, h1) →
      countObject.Reachable N (h1.objs c.co)
  | freeze (a : Nat) (h : Heap) :
      countObject.Reachable N (h.objs a) →
      countObject.Reachable N ((countObject.Freeze a h).objs a)

/-- The argument at this position is given and is a float. -/
def Value.argIsFloat : Option Value → Bool
  | some (.float _) => true
  | _ => false

/-- The host `H` with a record of the `Done` calls: the store is paired with the list of the
sub-iterators on which `Done` has been called, in call order; everything else is as in `H`. -/
def Host.withDoneLog {σ ι : Type} (H : Host σ ι) : Host (σ × List ι) ι where
  Iterate := fun v s =>
    match H.Iterate v s.1 with
    | .error e => .error e
    | .ok (iter, s1) => .ok (iter, (s1, s.2))
  Next := fun iter s =>
    match H.Next iter s.1 with
    | .error e => .error e
    | .ok (r, iter1, s1) => .ok (r, iter1, (s1, s.2))
  Done := fun iter s =>
    match H.Done iter s.1 with
    | .error e => .error e
    | .ok (iter1, s1) => .ok (iter1, (s1, s.2 ++ [iter]))
  Call := fun fn args s =>
    match H.Call fn args s.1 with
    | .error e => .error e
    | .ok (r, s1) => .ok (r, (s1, s.2))

/-- The sub-iterator as `Iterate` returned it: a list iterator back at index 0, a count
iterator as it is. It tells which sub-iterator of `Iterate` a later state belongs to. -/
def SubIter.origin : SubIter → SubIter
  | .listIterator l _ => .listIterator l 0
  | .countIter c => .countIter c

/-- The host call of an example callable that fails on the single argument 2 and gives
every other single integer argument back. -/
def failOnTwo : Option Value → List Value → Heap → Except Panic (Except Error Value × Heap) :=
  fun _ args h =>
    match args with
    | [.int n] => if n = 2 then .ok (.error (.text "two"), h) else .ok (.ok (.int n), h)
    | _ => .ok (.ok Value.none, h)

/-- The double 0.5, as its bit pattern. -/
def half : Float64 :=
  { bits := 4602678819172646912 }

/-- The object that `count(1, 0.5)` builds. -/
def intHalfCount : countObject :=
  { cnt := { i_ := some 1 }, step := { f_ := some half } }

/-! ## Lemmas on the count iterator -/

theorem Heap.set_objs_same (h : Heap) (a : Nat) (co : countObject) :
    (h.set a co).objs a = co := by
  simp [Heap.set]

theorem Heap.set_set (h : Heap) (a : Nat) (co1 co2 : countObject) :
    (h.set a co1).set a co2 = h.set a co2 := by
  simp [Heap.set]

theorem Heap.set_objs_self (h : Heap) (a : Nat) : h.set a (h.objs a) = h := by
  cases h
  simp [Heap.set]

theorem countIter.Next_intCount (N : HostNum) (c : countIter) (h : Heap) (a b : Int)
    (hc : h.objs c.co = intCount a b false) :
    countIter.Next N c h = .ok (some (.intPtr a), h.set c.co (intCount (a + b) b false)) := by
  simp [countIter.Next, hc, intCount, floatOrInt.add]

theorem countIter.nexts_intCount (N : HostNum) (c : countIter) (n : Nat) :
    ∀ (h : Heap) (a b : Int), h.objs c.co = intCount a b false →
      countIter.nexts N c n h =
        .ok ((List.range n).map (fun (k : Nat) => some (Value.intPtr (a + (k : Int) * b))),
          h.set c.co (intCount (a + n * b) b false)) := by
  induction n with
  | zero =>
    intro h a b hc
    simp [countIter.nexts, ← hc, Heap.set_objs_self]
  | succ n ih =>
    intro h a b hc
    have h1 := ih (h.set c.co (intCount (a + b) b false)) (a + b) b (Heap.set_objs_same _ _ _)
    simp only [countIter.nexts, countIter.Next_intCount N c h a b hc, h1, Heap.set_set]
    rw [List.range_succ_eq_map]
    have e1 : a + b + (n : Int) * b = a + ((n + 1 : Nat) : Int) * b := by push_cast; ring
    have e2 : ∀ k : Nat, a + b + (k : Int) * b = a + ((k + 1 : Nat) : Int) * b := by
      intro k; push_cast; ring
    simp [e1, e2, Function.comp]

theorem count__int_int (start step : Int) (h : Heap) :
    count_ [.int start, .int step] [] h =
      .ok (.count h.next, (h.alloc (intCount start step false)).2) := by
  simp [count_, UnpackPositionalArgs, unpackLoop, unpackOneArg, floatOrInt.Unpack, intCount,
    Heap.alloc]

theorem count__int (start : Int) (h : Heap) :
    count_ [.int start] [] h = .ok (.count h.next, (h.alloc (intCount start 1 false)).2) := by
  simp [count_, UnpackPositionalArgs, unpackLoop, unpackOneArg, floatOrInt.Unpack, intCount,
    Heap.alloc]

theorem count__nil (h : Heap) :
    count_ [] [] h = .ok (.count h.next, (h.alloc (intCount 0 1 false)).2) := by
  simp [count_, UnpackPositionalArgs, unpackLoop, intCount, Heap.alloc]

theorem Heap.alloc_objs (h : Heap) (co : countObject) : (h.alloc co).2.objs h.next = co := by
  simp [Heap.alloc]

/-! ## Lemmas on display, the factories and freezing -/

theorem AsInt_two_pow_63 (bits : Nat) :
    AsInt bits ((2 : Int) ^ 63) = .error (.outOfRange ((2 : Int) ^ 63) bits) := by
  simp [AsInt]

/-- Where the step is a float, or an integer that fits Go `int`, `String()` returns, and it
omits the step exactly when the step is the integer 1. -/
theorem countObject.String_of_fits (N : HostNum) (co : countObject)
    (hfit : ∀ b, co.step.i_ = some b → AsInt N.intBits b = .ok b) :
    countObject.String N co =
      .ok (if co.step.i_ = some 1 then "count(" ++ co.cnt.string N ++ ")"
        else "count(" ++ co.cnt.string N ++ ", " ++ co.step.string N ++ ")") := by
  cases hs : co.step.i_ with
  | none => simp [countObject.String, floatOrInt.eq, hs]
  | some b =>
    have hb := hfit b hs
    by_cases h1 : b = 1
    · subst h1
      simp [countObject.String, floatOrInt.eq, hs, hb]
    · simp [countObject.String, floatOrInt.eq, hs, hb, h1]

theorem floatOrInt.Unpack_default (v : Value) :
    floatOrInt.Unpack {} v =
      match v with
      | .int n => .ok { i_ := some n }
      | .float x => .ok { f_ := some x }
      | v => .error (.wantFloatOrInt v.Type) := by
  cases v <;> simp [floatOrInt.Unpack]

theorem unpackLoop_iterables_ok (fnname : String) (its : List Value) :
    ∀ i, (∀ v ∈ its, v.isIterable = true) →
      unpackLoop fnname i its (List.replicate its.length (.iterable none)) =
        .ok (its.map (fun v => Var.iterable (some v))) := by
  induction its with
  | nil => intro i _; simp [unpackLoop]
  | cons v its ih =>
    intro i hall
    have hv : v.isIterable = true := hall v (List.mem_cons_self _ _)
    have hrest := ih (i + 1) (fun w hw => hall w (List.mem_cons_of_mem _ hw))
    simp [List.replicate, unpackLoop, unpackOneArg, hv, hrest]

theorem unpackLoop_iterables_error (fnname : String) (its : List Value) :
    ∀ i, (∃ v ∈ its, v.isIterable = false) →
      ∃ e, unpackLoop fnname i its (List.replicate its.length (.iterable none)) = .error e := by
  induction its with
  | nil => intro i h; simp at h
  | cons v its ih =>
    intro i hex
    cases hv : v.isIterable with
    | false => simp [List.replicate, unpackLoop, unpackOneArg, hv]
    | true =>
      have hex2 : ∃ w ∈ its, w.isIterable = false := by
        obtain ⟨w, hw, hwf⟩ := hex
        rcases List.mem_cons.mp hw with rfl | hw
        · rw [hv] at hwf; cases hwf
        · exact ⟨w, hw, hwf⟩
      obtain ⟨e, he⟩ := ih (i + 1) hex2
      simp [List.replicate, unpackLoop, unpackOneArg, hv, he]

/-- On a non-empty argument list `map_` does what its contract says: an error for a single
argument, for keyword arguments, for a first argument that is not callable and for a later
one that is not iterable; otherwise the object holding the callable and the iterables. -/
theorem map__of_nonempty (name : String) (f : Value) (its : List Value)
    (kwargs : List (Value × Value)) :
    (its = [] → ∃ e, map_ name [f] kwargs = .ok (.error e)) ∧
    (kwargs ≠ [] → ∃ e, map_ name (f :: its) kwargs = .ok (.error e)) ∧
    (f.isCallable = false → ∃ e, map_ name (f :: its) kwargs = .ok (.error e)) ∧
    ((∃ v ∈ its, v.isIterable = false) → ∃ e, map_ name (f :: its) kwargs = .ok (.error e)) ∧
    (kwargs = [] → its ≠ [] → f.isCallable = true → (∀ v ∈ its, v.isIterable = true) →
      map_ name (f :: its) kwargs =
        .ok (.ok { function := some f, iterables := its.map some })) := by
  refine ⟨?_, ?_, ?_, ?_, ?_⟩
  · intro _
    cases kwargs <;> simp [map_, UnpackPositionalArgs]
  · intro hk
    cases kwargs with
    | nil => exact absurd rfl hk
    | cons k ks => simp [map_, UnpackPositionalArgs]
  · intro hf
    cases kwargs with
    | cons k ks => simp [map_, UnpackPositionalArgs]
    | nil =>
      cases its with
      | nil => simp [map_, UnpackPositionalArgs]
      | cons v its =>
        have hlen : ¬ (its.length + 1 + 1 < 2) := by omega
        simp [map_, UnpackPositionalArgs, unpackLoop, unpackOneArg, hf, hlen]
  · intro hex
    cases kwargs with
    | cons k ks => simp [map_, UnpackPositionalArgs]
    | nil =>
      cases its with
      | nil => simp at hex
      | cons v its =>
        have hlen : ¬ (its.length + 1 + 1 < 2) := by omega
        cases hf : f.isCallable with
        | false => simp [map_, UnpackPositionalArgs, unpackLoop, unpackOneArg, hf, hlen]
        | true =>
          obtain ⟨e, he⟩ := unpackLoop_iterables_error name (v :: its) 1 hex
          simp only [List.length_cons] at he
          simp [map_, UnpackPositionalArgs, hf, hlen, unpackLoop.eq_2, unpackOneArg, he]
  · intro hk hne hf hall
    subst hk
    cases its with
    | nil => exact absurd rfl hne
    | cons v its =>
      have hlen : ¬ (its.length + 1 + 1 < 2) := by omega
      have hok := unpackLoop_iterables_ok name (v :: its) 1 hall
      simp only [List.length_cons] at hok
      simp [map_, UnpackPositionalArgs, hf, hlen, unpackLoop.eq_2, unpackOneArg, hok,
        Var.asIterable, Function.comp]

theorem countIter.Next_frozen (N : HostNum) (c : countIter) (h : Heap)
    (hf : (h.objs c.co).frozen = true) : countIter.Next N c h = .ok (none, h) := by
  simp [countIter.Next, hf]

theorem countObject.Freeze_frozen (a : Nat) (h : Heap) :
    ((countObject.Freeze a h).objs a).frozen = true := by
  unfold countObject.Freeze
  split
  · simp [Heap.set]
  · simp_all

theorem countIter.interleave_same (N : HostNum) (c : countIter) (sched : List Bool) :
    ∀ h, countIter.interleave N c c sched h = countIter.nexts N c sched.length h := by
  induction sched with
  | nil => intro h; rfl
  | cons b sched ih =>
    intro h
    simp only [countIter.interleave, countIter.nexts, List.length_cons, ite_self]
    cases countIter.Next N c h with
    | error e => rfl
    | ok r => simp only [ih]

/-! ## Lemmas on the map iterator -/

theorem mapIter.pull_append {σ ι : Type} (H : Host σ ι) {pre pre1 : List ι} {s s1 : σ}
    {xs : List Value} (hp : mapIter.Pulled H.Next pre s xs pre1 s1) (rest : List ι)
    (buf : List Value) :
    mapIter.pull H (pre ++ rest) buf s =
      match mapIter.pull H rest (buf ++ xs) s1 with
      | .error e => .error e
      | .ok (b, rest1, buf1, s2) => .ok (b, pre1 ++ rest1, buf1, s2) := by
  induction hp generalizing buf with
  | nil s =>
    simp only [List.nil_append, List.append_nil]
    cases mapIter.pull H rest buf s with
    | error e => rfl
    | ok r => rfl
  | cons hn _ ih =>
    rw [List.cons_append, mapIter.pull.eq_2]
    simp only [hn]
    rw [ih, List.append_assoc, List.singleton_append]
    cases mapIter.pull H rest _ _ with
    | error e => rfl
    | ok r => rfl

theorem mapIter.pull_of_pulled {σ ι : Type} (H : Host σ ι) {its its1 : List ι} {s s1 : σ}
    {xs : List Value} (hp : mapIter.Pulled H.Next its s xs its1 s1) (buf : List Value) :
    mapIter.pull H its buf s = .ok (true, its1, buf ++ xs, s1) := by
  have := mapIter.pull_append H hp [] buf
  simpa [mapIter.pull] using this

theorem mapIter.pull_stop {σ ι : Type} (H : Host σ ι) {pre pre1 : List ι} {s s1 s2 : σ}
    {xs : List Value} (hp : mapIter.Pulled H.Next pre s xs pre1 s1) {iter iter1 : ι}
    (hn : H.Next iter s1 = .ok (none, iter1, s2)) (post : List ι) (buf : List Value) :
    mapIter.pull H (pre ++ iter :: post) buf s =
      .ok (false, pre1 ++ iter1 :: post, buf ++ xs, s2) := by
  rw [mapIter.pull_append H hp]
  simp [mapIter.pull, hn]

/-! ## Lemmas on maps over lists -/

theorem starHost_Next_list_lt (N : HostNum)
    (call : Option Value → List Value → Heap → Except Panic (Except Error Value × Heap))
    (l : List Value) (k : Nat) (h : Heap) (hk : k < l.length) :
    (starHost N call).Next (.listIterator l k) h =
      .ok (some (l.getD k Value.none), .listIterator l (k + 1), h) := by
  simp [starHost, List.getD, List.getElem?_eq_getElem hk]

theorem starHost_Next_list_ge (N : HostNum)
    (call : Option Value → List Value → Heap → Except Panic (Except Error Value × Heap))
    (l : List Value) (k : Nat) (h : Heap) (hk : l.length ≤ k) :
    (starHost N call).Next (.listIterator l k) h = .ok (none, .listIterator l k, h) := by
  simp [starHost, List.getElem?_eq_none hk]

theorem pulled_listIters (N : HostNum)
    (call : Option Value → List Value → Heap → Except Panic (Except Error Value × Heap))
    (k : Nat) (h : Heap) (ss : List (List Value)) (hlen : ∀ l ∈ ss, k < l.length) :
    mapIter.Pulled (starHost N call).Next (listIters ss k) h (row ss k) (listIters ss (k + 1)) h := by
  induction ss with
  | nil => exact mapIter.Pulled.nil h
  | cons l ss ih =>
    exact mapIter.Pulled.cons
      (starHost_Next_list_lt N call l k h (hlen l (List.mem_cons_self _ _)))
      (ih (fun t ht => hlen t (List.mem_cons_of_mem _ ht)))

theorem mapIter.Next_listIters_lt (N : HostNum)
    (call : Option Value → List Value → Heap → Except Panic (Except Error Value × Heap))
    (fn : Value) (f : List Value → Value)
    (hcall : ∀ args h, ∃ h1, call (some fn) args h = .ok (.ok (f args), h1))
    (k : Nat) (h : Heap) (ss : List (List Value)) (hlen : ∀ l ∈ ss, k < l.length)
    (buf : List Value) :
    ∃ h1, mapIter.Next (starHost N call)
        { function := some fn, iterators := listIters ss k, buf := buf } h =
      .ok (some (f (row ss k)),
        { function := some fn, iterators := listIters ss (k + 1), buf := row ss k }, h1) := by
  have hp := mapIter.pull_of_pulled _ (pulled_listIters N call k h ss hlen) []
  obtain ⟨h1, hc1⟩ := hcall (row ss k) h
  have hc : (starHost N call).Call (some fn) (row ss k) h = .ok (.ok (f (row ss k)), h1) := hc1
  exact ⟨h1, by simp only [mapIter.Next, hp, List.nil_append, hc]⟩

theorem mapIter.Next_listIters_stop (N : HostNum)
    (call : Option Value → List Value → Heap → Except Panic (Except Error Value × Heap))
    (fn : Option Value) (k : Nat) (h : Heap) (pre post : List (List Value)) (l : List Value)
    (hpre : ∀ p ∈ pre, k < p.length) (hl : l.length ≤ k) (buf : List Value) :
    mapIter.Next (starHost N call)
        { function := fn, iterators := listIters (pre ++ l :: post) k, buf := buf } h =
      .ok (none,
        { function := fn, iterators := listIters pre (k + 1) ++ listIters (l :: post) k,
          buf := row pre k }, h) := by
  have hp := mapIter.pull_stop _ (pulled_listIters N call k h pre hpre)
    (starHost_Next_list_ge N call l k h hl) (listIters post k) []
  have e : listIters (pre ++ l :: post) k =
      listIters pre k ++ SubIter.listIterator l k :: listIters post k := by
    simp [listIters]
  simp only [mapIter.Next, e, hp, List.nil_append]
  simp [listIters]

theorem mapIter.drain_listIters (N : HostNum)
    (call : Option Value → List Value → Heap → Except Panic (Except Error Value × Heap))
    (fn : Value) (f : List Value → Value)
    (hcall : ∀ args h, ∃ h1, call (some fn) args h = .ok (.ok (f args), h1))
    (pre post : List (List Value)) (l : List Value)
    (hpre : ∀ p ∈ pre, l.length < p.length) (hpost : ∀ q ∈ post, l.length ≤ q.length)
    (n : Nat) :
    ∀ (k : Nat) (buf : List Value) (h : Heap), k + n = l.length →
      ∃ h1, mapIter.drain (starHost N call) (n + 1)
          { function := some fn, iterators := listIters (pre ++ l :: post) k, buf := buf } h =
        .ok ((List.range' k n).map (fun i => f (row (pre ++ l :: post) i)), true,
          { function := some fn,
            iterators := listIters pre (l.length + 1) ++ listIters (l :: post) l.length,
            buf := row pre l.length }, h1) := by
  induction n with
  | zero =>
    intro k buf h hk
    have hk0 : k = l.length := by omega
    subst hk0
    refine ⟨h, ?_⟩
    simp only [mapIter.drain,
      mapIter.Next_listIters_stop N call (some fn) l.length h pre post l hpre (le_refl _) buf]
    simp
  | succ n ih =>
    intro k buf h hk
    have hlen : ∀ t ∈ pre ++ l :: post, k < t.length := by
      intro t ht
      rcases List.mem_append.mp ht with ht | ht
      · have := hpre t ht; omega
      · rcases List.mem_cons.mp ht with rfl | ht
        · omega
        · have := hpost t ht; omega
    obtain ⟨h1, hn⟩ := mapIter.Next_listIters_lt N call fn f hcall k h _ hlen buf
    obtain ⟨h2, hd⟩ := ih (k + 1) (row (pre ++ l :: post) k) h1 (by omega)
    refine ⟨h2, ?_⟩
    rw [mapIter.drain.eq_2]
    simp only [hn, hd]
    simp [List.range']

theorem mapObject.iterateLoop_lists (N : HostNum)
    (call : Option Value → List Value → Heap → Except Panic (Except Error Value × Heap))
    (h : Heap) (ss : List (List Value)) :
    mapObject.iterateLoop (starHost N call) (ss.map (fun l => some (Value.list l))) h =
      .ok (listIters ss 0, h) := by
  induction ss with
  | nil => rfl
  | cons l ss ih =>
    have hI : (starHost N call).Iterate (Value.list l) h = .ok (.listIterator l 0, h) := rfl
    rw [List.map_cons, mapObject.iterateLoop.eq_3]
    simp only [hI, ih]
    rfl

theorem mapObject.Iterate_mapOfLists (N : HostNum)
    (call : Option Value → List Value → Heap → Except Panic (Except Error Value × Heap))
    (fn : Value) (h : Heap) (ss : List (List Value)) :
    mapObject.Iterate (starHost N call) (mapOfLists fn ss) h =
      .ok ({ function := some fn, iterators := listIters ss 0, buf := [] }, h) := by
  simp [mapObject.Iterate, mapOfLists, mapObject.iterateLoop_lists]

theorem exists_first_shortest (m : Nat) (ss : List (List Value))
    (hm : ∀ l ∈ ss, m ≤ l.length) (hex : ∃ l ∈ ss, l.length = m) :
    ∃ pre l post, ss = pre ++ l :: post ∧ l.length = m ∧ (∀ p ∈ pre, m < p.length) := by
  induction ss with
  | nil => simp at hex
  | cons t ss ih =>
    by_cases ht : t.length = m
    · exact ⟨[], t, ss, rfl, ht, by simp⟩
    · have hex2 : ∃ l ∈ ss, l.length = m := by
        obtain ⟨l, hl, hlm⟩ := hex
        rcases List.mem_cons.mp hl with rfl | hl
        · exact absurd hlm ht
        · exact ⟨l, hl, hlm⟩
      obtain ⟨pre, l, post, hss, hl, hpre⟩ :=
        ih (fun l hl => hm l (List.mem_cons_of_mem _ hl)) hex2
      refine ⟨t :: pre, l, post, by simp [hss], hl, ?_⟩
      intro p hp
      rcases List.mem_cons.mp hp with rfl | hp
      · have := hm p (List.mem_cons_self _ _); omega
      · exact hpre p hp

theorem pulled_listIters_eq (ss : List (List Value)) (k : Nat) :
    (listIters ss k).map SubIter.pulled = ss.map (fun l => l.take k) := by
  simp [listIters, SubIter.pulled, Function.comp]

theorem mapIter.pull_lists (N : HostNum)
    (call : Option Value → List Value → Heap → Except Panic (Except Error Value × Heap))
    (h : Heap) (its : List SubIter) :
    ∀ buf, (∀ it ∈ its, it.isList = true) →
      ∃ b its1 buf1, mapIter.pull (starHost N call) its buf h = .ok (b, its1, buf1, h) ∧
        ∀ it ∈ its1, it.isList = true := by
  induction its with
  | nil => intro buf _; exact ⟨true, [], buf, rfl, by simp⟩
  | cons it its ih =>
    intro buf hall
    have hrest : ∀ t ∈ its, t.isList = true := fun t ht => hall t (List.mem_cons_of_mem _ ht)
    cases it with
    | countIter c => have := hall _ (List.mem_cons_self _ _); simp [SubIter.isList] at this
    | listIterator l i =>
      cases hg : l[i]? with
      | none =>
        have hn : (starHost N call).Next (.listIterator l i) h =
            .ok (none, .listIterator l i, h) := by simp [starHost, hg]
        refine ⟨false, .listIterator l i :: its, buf, ?_, hall⟩
        rw [mapIter.pull.eq_2]
        simp only [hn]
      | some x =>
        have hn : (starHost N call).Next (.listIterator l i) h =
            .ok (some x, .listIterator l (i + 1), h) := by simp [starHost, hg]
        obtain ⟨b, its1, buf1, hp, hl⟩ := ih (buf ++ [x]) hrest
        refine ⟨b, .listIterator l (i + 1) :: its1, buf1, ?_, ?_⟩
        · rw [mapIter.pull.eq_2]
          simp only [hn, hp]
        · intro t ht
          rcases List.mem_cons.mp ht with rfl | ht
          · rfl
          · exact hl t ht

theorem mapIter.Next_lists (N : HostNum)
    (call : Option Value → List Value → Heap → Except Panic (Except Error Value × Heap))
    (hcall : ∀ fnc args h, ∃ r, call fnc args h = .ok (r, h))
    (h : Heap) (f : mapIter SubIter) (hf : ∀ it ∈ f.iterators, it.isList = true) :
    ∃ r f1, mapIter.Next (starHost N call) f h = .ok (r, f1, h) ∧
      ∀ it ∈ f1.iterators, it.isList = true := by
  obtain ⟨b, its1, buf1, hp, hl⟩ := mapIter.pull_lists N call h f.iterators [] hf
  cases b with
  | false =>
    exact ⟨none, { f with iterators := its1, buf := buf1 }, by simp only [mapIter.Next, hp], hl⟩
  | true =>
    obtain ⟨r, hr⟩ := hcall f.function buf1 h
    have hc : (starHost N call).Call f.function buf1 h = .ok (r, h) := hr
    cases r with
    | error e =>
      exact ⟨none, { f with iterators := its1, buf := buf1 },
        by simp only [mapIter.Next, hp, hc], hl⟩
    | ok v =>
      exact ⟨some v, { f with iterators := its1, buf := buf1 },
        by simp only [mapIter.Next, hp, hc], hl⟩

theorem mapIter.interleave_lists (N : HostNum)
    (call : Option Value → List Value → Heap → Except Panic (Except Error Value × Heap))
    (hcall : ∀ fnc args h, ∃ r, call fnc args h = .ok (r, h))
    (h : Heap) (sched : List Bool) :
    ∀ (f g : mapIter SubIter), (∀ it ∈ f.iterators, it.isList = true) →
      (∀ it ∈ g.iterators, it.isList = true) →
      ∃ rs qs f1 g1,
        mapIter.interleave (starHost N call) sched f g h = .ok (rs, qs, f1, g1, h) ∧
        mapIter.nexts (starHost N call) (sched.count false) f h = .ok (rs, f1, h) ∧
        mapIter.nexts (starHost N call) (sched.count true) g h = .ok (qs, g1, h) := by
  induction sched with
  | nil => intro f g _ _; exact ⟨[], [], f, g, rfl, rfl, rfl⟩
  | cons b sched ih =>
    intro f g hf hg
    cases b with
    | false =>
      obtain ⟨r, f1, hn, hf1⟩ := mapIter.Next_lists N call hcall h f hf
      obtain ⟨rs, qs, f2, g2, hi, h1, h2⟩ := ih f1 g hf1 hg
      refine ⟨r :: rs, qs, f2, g2, ?_, ?_, ?_⟩
      · simp only [mapIter.interleave, hn, hi]
      · simp only [List.count_cons_self, mapIter.nexts, hn, h1]
      · simpa using h2
    | true =>
      obtain ⟨q, g1, hn, hg1⟩ := mapIter.Next_lists N call hcall h g hg
      obtain ⟨rs, qs, f2, g2, hi, h1, h2⟩ := ih f g1 hf hg1
      refine ⟨rs, q :: qs, f2, g2, ?_, ?_, ?_⟩
      · simp only [mapIter.interleave, hn, hi]
      · simpa using h1
      · simp only [List.count_cons_self, mapIter.nexts, hn, h2]

/-! ## Lemmas on the variants of the union and on reachable count objects -/

theorem floatOrInt.Unpack_default_exactlyOne (v : Value) (p : floatOrInt)
    (hp : floatOrInt.Unpack {} v = .ok p) : p.exactlyOne = true := by
  cases v <;> simp [floatOrInt.Unpack] at hp <;> subst hp <;> rfl

theorem floatOrInt.add_exactlyOne (N : HostNum) (fi n : floatOrInt)
    (hfi : fi.exactlyOne = true) (hn : n.exactlyOne = true) :
    ∃ r, floatOrInt.add N fi n = .ok r ∧ r.exactlyOne = true ∧
      r.f_.isSome = (fi.f_.isSome || n.f_.isSome) := by
  rcases fi with ⟨_ | x, _ | a⟩ <;> rcases n with ⟨_ | y, _ | b⟩ <;>
    simp [floatOrInt.exactlyOne] at hfi hn <;>
    simp [floatOrInt.add, floatOrInt.exactlyOne]

theorem floatOrInt.add_ok_exactlyOne (N : HostNum) (fi n r : floatOrInt)
    (hfi : fi.exactlyOne = true) (hn : n.exactlyOne = true)
    (hr : floatOrInt.add N fi n = .ok r) : r.exactlyOne = true := by
  obtain ⟨r1, h1, h2, _⟩ := floatOrInt.add_exactlyOne N fi n hfi hn
  rw [h1] at hr
  cases hr
  exact h2

theorem floatOrInt.exactlyOne_of_Reachable (N : HostNum) (fi : floatOrInt)
    (h : floatOrInt.Reachable N fi) : fi.exactlyOne = true := by
  induction h with
  | unpack v p hp => exact floatOrInt.Unpack_default_exactlyOne v p hp
  | add fi n r _ _ hr ih1 ih2 => exact floatOrInt.add_ok_exactlyOne N fi n r ih1 ih2 hr

/-- What a successful `count_` call returns: the address of a new, unfrozen object whose
current value and step are the arguments given, or the integers 0 and 1. -/
theorem count__ok (args : List Value) (kwargs : List (Value × Value)) (h h1 : Heap)
    (v : Value) (hok : count_ args kwargs h = .ok (v, h1)) :
    v = .count h.next ∧
    h1 = (h.alloc { cnt := floatOrInt.ofArg 0 (args.get? 0),
                    step := floatOrInt.ofArg 1 (args.get? 1), frozen := false }).2 := by
  cases kwargs with
  | cons k ks => simp [count_, UnpackPositionalArgs] at hok
  | nil =>
    match args, hok with
    | [], hok =>
      simp [count_, UnpackPositionalArgs, unpackLoop] at hok
      simp [← hok.1, ← hok.2, floatOrInt.ofArg, Heap.alloc]
    | [x], hok =>
      cases x <;>
        simp [count_, UnpackPositionalArgs, unpackLoop, unpackOneArg, floatOrInt.Unpack] at hok <;>
        simp [← hok.1, ← hok.2, floatOrInt.ofArg, Heap.alloc]
    | [x, y], hok =>
      cases x <;> cases y <;>
        simp [count_, UnpackPositionalArgs, unpackLoop, unpackOneArg, floatOrInt.Unpack] at hok <;>
        simp [← hok.1, ← hok.2, floatOrInt.ofArg, Heap.alloc]
    | _ :: _ :: _ :: _, hok => simp [count_, UnpackPositionalArgs] at hok

/-- On success every argument of `count_` is an integer or a float. -/
theorem count__ok_args (args : List Value) (kwargs : List (Value × Value)) (h h1 : Heap)
    (v : Value) (hok : count_ args kwargs h = .ok (v, h1)) :
    ∀ x ∈ args, x.isIntOrFloat = true := by
  cases kwargs with
  | cons k ks => simp [count_, UnpackPositionalArgs] at hok
  | nil =>
    match args, hok with
    | [], hok => simp
    | [x], hok =>
      cases x <;>
        simp [count_, UnpackPositionalArgs, unpackLoop, unpackOneArg, floatOrInt.Unpack] at hok <;>
        simp [Value.isIntOrFloat]
    | [x, y], hok =>
      cases x <;> cases y <;>
        simp [count_, UnpackPositionalArgs, unpackLoop, unpackOneArg, floatOrInt.Unpack] at hok <;>
        simp [Value.isIntOrFloat]
    | _ :: _ :: _ :: _, hok => simp [count_, UnpackPositionalArgs] at hok

theorem floatOrInt.ofArg_exactlyOne (dflt : Int) (o : Option Value)
    (ho : ∀ x, o = some x → x.isIntOrFloat = true) : (floatOrInt.ofArg dflt o).exactlyOne = true := by
  cases o with
  | none => rfl
  | some x =>
    have := ho x rfl
    cases x <;> simp [Value.isIntOrFloat] at this <;> rfl

theorem countIter.Next_unfrozen (N : HostNum) (c : countIter) (h : Heap)
    (hf : (h.objs c.co).frozen = false) (hc : (h.objs c.co).cnt.exactlyOne = true)
    (hs : (h.objs c.co).step.exactlyOne = true) :
    ∃ v cnt1, countIter.Next N c h =
        .ok (some v, h.set c.co { h.objs c.co with cnt := cnt1 }) ∧
      v.isFloatKind = (h.objs c.co).cnt.f_.isSome ∧ v.isIntKind = !v.isFloatKind ∧
      cnt1.exactlyOne = true ∧
      cnt1.f_.isSome = ((h.objs c.co).cnt.f_.isSome || (h.objs c.co).step.f_.isSome) := by
  obtain ⟨cnt1, hadd, hone, hkind⟩ := floatOrInt.add_exactlyOne N _ _ hc hs
  refine ⟨(match (h.objs c.co).cnt.i_ with
      | some a => Value.intPtr a
      | none =>
        match (h.objs c.co).cnt.f_ with
        | some x => Value.floatPtr x
        | none => Value.none), cnt1, ?_, ?_, ?_, hone, hkind⟩
  · simp only [countIter.Next, hf, hadd]
    rfl
  · generalize (h.objs c.co).cnt = cnt at hc
    rcases cnt with ⟨_ | x, _ | a⟩ <;> simp [floatOrInt.exactlyOne] at hc <;> rfl
  · generalize (h.objs c.co).cnt = cnt at hc
    rcases cnt with ⟨_ | x, _ | a⟩ <;> simp [floatOrInt.exactlyOne] at hc <;> rfl

theorem countIter.nexts_unfrozen (N : HostNum) (c : countIter) (n : Nat) :
    ∀ (h : Heap), (h.objs c.co).frozen = false → (h.objs c.co).cnt.exactlyOne = true →
      (h.objs c.co).step.exactlyOne = true →
      ∃ rs hn, countIter.nexts N c n h = .ok (rs, hn) ∧ rs.length = n ∧
        ∀ k, k < n → ∃ v, rs.get? k = some (some v) ∧
          v.isFloatKind = (if k = 0 then (h.objs c.co).cnt.f_.isSome
            else ((h.objs c.co).cnt.f_.isSome || (h.objs c.co).step.f_.isSome)) ∧
          v.isIntKind = !v.isFloatKind := by
  induction n with
  | zero => intro h _ _ _; exact ⟨[], h, rfl, rfl, fun k hk => absurd hk (Nat.not_lt_zero k)⟩
  | succ n ih =>
    intro h hf hc hs
    obtain ⟨v, cnt1, hn, hv, hvi, hone, hkind⟩ := countIter.Next_unfrozen N c h hf hc hs
    have hobj := Heap.set_objs_same h c.co { h.objs c.co with cnt := cnt1 }
    obtain ⟨rs, hn1, hrs, hlen, hk⟩ := ih (h.set c.co { h.objs c.co with cnt := cnt1 })
      (by rw [hobj]; exact hf) (by rw [hobj]; exact hone) (by rw [hobj]; exact hs)
    refine ⟨some v :: rs, hn1, by simp only [countIter.nexts, hn, hrs], by simp [hlen], ?_⟩
    intro k hkn
    cases k with
    | zero => exact ⟨v, rfl, by simpa using hv, hvi⟩
    | succ k =>
      obtain ⟨w, hw, hwk, hwi⟩ := hk k (by omega)
      refine ⟨w, by simpa using hw, ?_, hwi⟩
      rw [hwk, hobj]
      simp only [hkind]
      by_cases hk0 : k = 0 <;> simp [hk0]

theorem countIter.Next_preserves (N : HostNum) (c : countIter) (h h1 : Heap)
    (r : Option Value) (hn : countIter.Next N c h = .ok (r, h1))
    (hc : (h.objs c.co).cnt.exactlyOne = true) (hs : (h.objs c.co).step.exactlyOne = true) :
    (h1.objs c.co).cnt.exactlyOne = true ∧ (h1.objs c.co).step.exactlyOne = true := by
  cases hf : (h.objs c.co).frozen with
  | true =>
    rw [countIter.Next_frozen N c h hf] at hn
    cases hn
    exact ⟨hc, hs⟩
  | false =>
    obtain ⟨v, cnt1, hn1, _, _, hone, _⟩ := countIter.Next_unfrozen N c h hf hc hs
    rw [hn1] at hn
    cases hn
    rw [Heap.set_objs_same]
    exact ⟨hone, hs⟩

theorem countObject.Freeze_objs (a : Nat) (h : Heap) :
    (countObject.Freeze a h).objs a = { h.objs a with frozen := true } := by
  unfold countObject.Freeze
  cases hf : (h.objs a).frozen with
  | true =>
    simp only [Bool.not_true, Bool.false_eq_true, ↓reduceIte]
    rw [← hf]
  | false => simp [Heap.set]

theorem countObject.fields_exactlyOne_of_Reachable (N : HostNum) (co : countObject)
    (h : countObject.Reachable N co) :
    co.cnt.exactlyOne = true ∧ co.step.exactlyOne = true := by
  induction h with
  | built args kwargs h h1 a hok =>
    have hargs := count__ok_args args kwargs h h1 _ hok
    obtain ⟨hv, hh⟩ := count__ok args kwargs h h1 _ hok
    cases hv
    rw [hh, Heap.alloc_objs]
    refine ⟨floatOrInt.ofArg_exactlyOne 0 _ ?_, floatOrInt.ofArg_exactlyOne 1 _ ?_⟩
    · intro x hx
      exact hargs x (List.get?_mem hx)
    · intro x hx
      exact hargs x (List.get?_mem hx)
  | next c h h1 r _ hn ih => exact countIter.Next_preserves N c h h1 r hn ih.1 ih.2
  | freeze a h _ ih =>
    rw [countObject.Freeze_objs]
    exact ih

theorem floatOrInt.ofArg_isFloat (dflt : Int) (o : Option Value) :
    (floatOrInt.ofArg dflt o).f_.isSome = Value.argIsFloat o := by
  cases o with
  | none => rfl
  | some x => cases x <;> rfl

theorem count__ok_valid (args : List Value) (kwargs : List (Value × Value)) (h h1 : Heap)
    (a : Nat) (hok : count_ args kwargs h = .ok (.count a, h1)) :
    h1.objs a = { cnt := floatOrInt.ofArg 0 (args.get? 0),
                  step := floatOrInt.ofArg 1 (args.get? 1), frozen := false } ∧
    (h1.objs a).cnt.exactlyOne = true ∧ (h1.objs a).step.exactlyOne = true := by
  have hargs := count__ok_args args kwargs h h1 _ hok
  obtain ⟨hv, hh⟩ := count__ok args kwargs h h1 _ hok
  cases hv
  rw [hh, Heap.alloc_objs]
  exact ⟨rfl, floatOrInt.ofArg_exactlyOne 0 _ (fun x hx => hargs x (List.get?_mem hx)),
    floatOrInt.ofArg_exactlyOne 1 _ (fun x hx => hargs x (List.get?_mem hx))⟩

theorem countObject.Freeze_of_frozen (a : Nat) (h : Heap) (hf : (h.objs a).frozen = true) :
    countObject.Freeze a h = h := by
  simp [countObject.Freeze, hf]

theorem starHost_withDoneLog_Next_frame (N : HostNum)
    (call : Option Value → List Value → Heap → Except Panic (Except Error Value × Heap))
    (iter iter1 : SubIter) (s s1 : Heap × List SubIter) (r : Option Value)
    (hn : (starHost N call).withDoneLog.Next iter s = .ok (r, iter1, s1)) :
    s1.2 = s.2 ∧ iter1.origin = iter.origin := by
  cases iter with
  | listIterator l i =>
    cases hg : l[i]? with
    | none =>
      simp [Host.withDoneLog, starHost, hg] at hn
      obtain ⟨_, h2, h3⟩ := hn
      subst h2; subst h3
      exact ⟨rfl, rfl⟩
    | some x =>
      simp [Host.withDoneLog, starHost, hg] at hn
      obtain ⟨_, h2, h3⟩ := hn
      subst h2; subst h3
      exact ⟨rfl, rfl⟩
  | countIter c =>
    cases hc : countIter.Next N c s.1 with
    | error e => simp [Host.withDoneLog, starHost, hc] at hn
    | ok p =>
      simp [Host.withDoneLog, starHost, hc] at hn
      obtain ⟨_, h2, h3⟩ := hn
      subst h2; subst h3
      exact ⟨rfl, rfl⟩

theorem mapIter.pull_withDoneLog_frame (N : HostNum)
    (call : Option Value → List Value → Heap → Except Panic (Except Error Value × Heap))
    (its : List SubIter) :
    ∀ (buf : List Value) (s s1 : Heap × List SubIter) (b : Bool) (its1 : List SubIter)
      (buf1 : List Value),
      mapIter.pull (starHost N call).withDoneLog its buf s = .ok (b, its1, buf1, s1) →
      s1.2 = s.2 ∧ its1.map SubIter.origin = its.map SubIter.origin := by
  induction its with
  | nil =>
    intro buf s s1 b its1 buf1 hp
    simp [mapIter.pull] at hp
    obtain ⟨_, h2, _, h4⟩ := hp
    subst h2; subst h4
    exact ⟨rfl, rfl⟩
  | cons iter rest ih =>
    intro buf s s1 b its1 buf1 hp
    rw [mapIter.pull.eq_2] at hp
    cases hn : (starHost N call).withDoneLog.Next iter s with
    | error e => simp [hn] at hp
    | ok p =>
      obtain ⟨r, iter1, s2⟩ := p
      obtain ⟨hlog, horig⟩ := starHost_withDoneLog_Next_frame N call iter iter1 s s2 r hn
      cases r with
      | none =>
        simp [hn] at hp
        obtain ⟨_, h2, _, h4⟩ := hp
        subst h2; subst h4
        exact ⟨hlog, by simp [horig]⟩
      | some x =>
        simp only [hn] at hp
        cases hr : mapIter.pull (starHost N call).withDoneLog rest (buf ++ [x]) s2 with
        | error e => simp [hr] at hp
        | ok q =>
          obtain ⟨b2, rest1, buf2, s3⟩ := q
          obtain ⟨hlog2, horig2⟩ := ih _ _ _ _ _ _ hr
          simp [hr] at hp
          obtain ⟨_, h2, _, h4⟩ := hp
          subst h2; subst h4
          exact ⟨hlog2.trans hlog, by simp [horig, horig2]⟩

theorem mapIter.Next_withDoneLog_frame (N : HostNum)
    (call : Option Value → List Value → Heap → Except Panic (Except Error Value × Heap))
    (f f1 : mapIter SubIter) (s s1 : Heap × List SubIter) (r : Option Value)
    (hn : mapIter.Next (starHost N call).withDoneLog f s = .ok (r, f1, s1)) :
    s1.2 = s.2 ∧ f1.iterators.map SubIter.origin = f.iterators.map SubIter.origin := by
  unfold mapIter.Next at hn
  cases hp : mapIter.pull (starHost N call).withDoneLog f.iterators [] s with
  | error e => simp [hp] at hn
  | ok q =>
    obtain ⟨b, its1, buf1, s2⟩ := q
    obtain ⟨hlog, horig⟩ := mapIter.pull_withDoneLog_frame N call _ _ _ _ _ _ _ hp
    cases b with
    | false =>
      simp [hp] at hn
      obtain ⟨_, h2, h3⟩ := hn
      subst h2; subst h3
      exact ⟨hlog, horig⟩
    | true =>
      simp only [hp] at hn
      cases hc : call f.function buf1 s2.1 with
      | error e =>
        have : (starHost N call).withDoneLog.Call f.function buf1 s2 = .error e := by
          simp [Host.withDoneLog, starHost, hc]
        simp [this] at hn
      | ok p =>
        obtain ⟨res, h3⟩ := p
        have hcall : (starHost N call).withDoneLog.Call f.function buf1 s2 =
            .ok (res, (h3, s2.2)) := by
          simp [Host.withDoneLog, starHost, hc]
        cases res with
        | error e =>
          simp [hcall] at hn
          obtain ⟨_, h2, h4⟩ := hn
          subst h2; subst h4
          exact ⟨hlog, horig⟩
        | ok v =>
          simp [hcall] at hn
          obtain ⟨_, h2, h4⟩ := hn
          subst h2; subst h4
          exact ⟨hlog, horig⟩

theorem mapIter.nexts_withDoneLog_frame (N : HostNum)
    (call : Option Value → List Value → Heap → Except Panic (Except Error Value × Heap))
    (n : Nat) :
    ∀ (f f1 : mapIter SubIter) (s s1 : Heap × List SubIter) (rs : List (Option Value)),
      mapIter.nexts (starHost N call).withDoneLog n f s = .ok (rs, f1, s1) →
      s1.2 = s.2 ∧ f1.iterators.map SubIter.origin = f.iterators.map SubIter.origin := by
  induction n with
  | zero =>
    intro f f1 s s1 rs hn
    simp [mapIter.nexts] at hn
    obtain ⟨_, h2, h3⟩ := hn
    subst h2; subst h3
    exact ⟨rfl, rfl⟩
  | succ n ih =>
    intro f f1 s s1 rs hn
    rw [mapIter.nexts.eq_2] at hn
    cases h1 : mapIter.Next (starHost N call).withDoneLog f s with
    | error e => simp [h1] at hn
    | ok p =>
      obtain ⟨r, f2, s2⟩ := p
      obtain ⟨hlog, horig⟩ := mapIter.Next_withDoneLog_frame N call f f2 s s2 r h1
      simp only [h1] at hn
      cases h2 : mapIter.nexts (starHost N call).withDoneLog n f2 s2 with
      | error e => simp [h2] at hn
      | ok q =>
        obtain ⟨rs2, f3, s3⟩ := q
        obtain ⟨hlog2, horig2⟩ := ih _ _ _ _ _ h2
        simp [h2] at hn
        obtain ⟨_, h3, h4⟩ := hn
        subst h3; subst h4
        exact ⟨hlog2.trans hlog, horig2.trans horig⟩

theorem mapObject.iterateLoop_withDoneLog_frame (N : HostNum)
    (call : Option Value → List Value → Heap → Except Panic (Except Error Value × Heap))
    (vs : List (Option Value)) :
    ∀ (s s1 : Heap × List SubIter) (its : List SubIter),
      mapObject.iterateLoop (starHost N call).withDoneLog vs s = .ok (its, s1) →
      s1.2 = s.2 ∧ its.map SubIter.origin = its ∧ its.length = vs.length := by
  induction vs with
  | nil =>
    intro s s1 its hi
    simp [mapObject.iterateLoop] at hi
    obtain ⟨h1, h2⟩ := hi
    subst h1; subst h2
    exact ⟨rfl, rfl, rfl⟩
  | cons v vs ih =>
    intro s s1 its hi
    cases v with
    | none => simp [mapObject.iterateLoop] at hi
    | some v =>
      rw [mapObject.iterateLoop.eq_3] at hi
      cases hv : (starHost N call).withDoneLog.Iterate v s with
      | error e => simp [hv] at hi
      | ok p =>
        obtain ⟨iter, s2⟩ := p
        have hfr : s2.2 = s.2 ∧ iter.origin = iter := by
          cases v <;> simp [Host.withDoneLog, starHost] at hv <;>
            obtain ⟨h1, h2⟩ := hv <;> subst h1 <;> subst h2 <;> exact ⟨rfl, rfl⟩
        simp only [hv] at hi
        cases hr : mapObject.iterateLoop (starHost N call).withDoneLog vs s2 with
        | error e => simp [hr] at hi
        | ok q =>
          obtain ⟨its2, s3⟩ := q
          obtain ⟨hlog, horig, hlen⟩ := ih _ _ _ hr
          simp [hr] at hi
          obtain ⟨h1, h2⟩ := hi
          subst h1; subst h2
          exact ⟨hlog.trans hfr.1, by simp [hfr.2, horig], by simp [hlen]⟩

theorem mapIter.doneLoop_withDoneLog (N : HostNum)
    (call : Option Value → List Value → Heap → Except Panic (Except Error Value × Heap))
    (its : List SubIter) :
    ∀ (s : Heap × List SubIter),
      mapIter.doneLoop (starHost N call).withDoneLog its s = .ok (its, (s.1, s.2 ++ its)) := by
  induction its with
  | nil => intro s; simp [mapIter.doneLoop]
  | cons iter rest ih =>
    intro s
    have hd : (starHost N call).withDoneLog.Done iter s = .ok (iter, (s.1, s.2 ++ [iter])) := by
      cases iter <;> simp [Host.withDoneLog, starHost, countIter.Done]
    rw [mapIter.doneLoop.eq_2]
    simp only [hd, ih]
    simp

theorem mapIter.Next_mixed_stop (N : HostNum)
    (call : Option Value → List Value → Heap → Except Panic (Except Error Value × Heap))
    (fn : Option Value) (i k : Nat) (h : Heap) (pre : List (List Value)) (l : List Value)
    (postIts : List SubIter) (hpre : ∀ p ∈ pre, i < p.length) (hl : l.length ≤ k)
    (buf : List Value) :
    mapIter.Next (starHost N call)
        { function := fn, iterators := listIters pre i ++ SubIter.listIterator l k :: postIts,
          buf := buf } h =
      .ok (none,
        { function := fn,
          iterators := listIters pre (i + 1) ++ SubIter.listIterator l k :: postIts,
          buf := row pre i }, h) := by
  have hp := mapIter.pull_stop _ (pulled_listIters N call i h pre hpre)
    (starHost_Next_list_ge N call l k h hl) postIts []
  simp only [mapIter.Next, hp, List.nil_append]

/-! ## Theorems for the claims -/

/-- C1: for all exact integers `start` and `step`, every store and every `n`, the first `n`
`Next` calls on an iterator of the object built by `count(start, step)` all succeed and the
`(k+1)`-th emits (a reference to) the exact integer `start + k*step`, computed on unbounded
integers; likewise `count(start)` emits `start + k` and `count()` emits `k`, so `count()`
gives 0,1,2,..., `count(5)` gives 5,6,7,... and `count(0,2)` gives 0,2,4,.... -/
theorem count_emits_integer_progression (N : HostNum) (start step : Int) (h : Heap) (n : Nat) :
    (∃ a h0 hn, count_ [.int start, .int step] [] h = .ok (.count a, h0) ∧
      countIter.nexts N (countObject.Iterate a) n h0 =
        .ok ((List.range n).map (fun (k : Nat) => some (Value.intPtr (start + (k : Int) * step))), hn)) ∧
    (∃ a h0 hn, count_ [.int start] [] h = .ok (.count a, h0) ∧
      countIter.nexts N (countObject.Iterate a) n h0 =
        .ok ((List.range n).map (fun (k : Nat) => some (Value.intPtr (start + (k : Int)))), hn)) ∧
    (∃ a h0 hn, count_ [] [] h = .ok (.count a, h0) ∧
      countIter.nexts N (countObject.Iterate a) n h0 =
        .ok ((List.range n).map (fun (k : Nat) => some (Value.intPtr (k : Int))), hn)) := by
  refine ⟨⟨_, _, _, count__int_int start step h,
    countIter.nexts_intCount N _ n _ start step (Heap.alloc_objs _ _)⟩, ?_, ?_⟩
  · have := countIter.nexts_intCount N (countObject.Iterate h.next) n _ start 1
      (Heap.alloc_objs h _)
    simp only [mul_one] at this
    exact ⟨_, _, _, count__int start h, this⟩
  · have := countIter.nexts_intCount N (countObject.Iterate h.next) n _ 0 1
      (Heap.alloc_objs h _)
    simp only [mul_one, zero_add] at this
    exact ⟨_, _, _, count__nil h, this⟩

/-- C2 (the code departs from it): `String()` does not return for every reachable count
object. `count(0, 2^63)` succeeds and builds the object with integer step `2^63`; on that
object `String()` panics, because `eq(1)` converts the step to a Go `int` with `AsInt` and
panics on the out-of-range error, whatever the width of `int`. -/
theorem countObject_String_panics_on_large_step (N : HostNum) (h : Heap) :
    count_ [.int 0, .int ((2 : Int) ^ 63)] [] h =
      .ok (.count h.next, (h.alloc (intCount 0 ((2 : Int) ^ 63) false)).2) ∧
    countObject.String N ((h.alloc (intCount 0 ((2 : Int) ^ 63) false)).2.objs h.next) =
      .error (.error (.outOfRange ((2 : Int) ^ 63) N.intBits)) := by
  refine ⟨count__int_int 0 _ h, ?_⟩
  rw [Heap.alloc_objs]
  simp only [countObject.String, floatOrInt.eq, intCount, AsInt_two_pow_63]

/-- C3 (the code departs from it): on the empty positional argument list `map_` does not
return an error; it panics in `make([]starlark.Iterable, len(args)-1)`, before the arity
check of `UnpackPositionalArgs` is reached. -/
theorem map__panics_on_no_arguments (name : String) (kwargs : List (Value × Value)) :
    map_ name [] kwargs = .error (.runtime "makeslice: len out of range") := by
  simp [map_]

/-- C4: for a callable `fn` that never fails and returns `f` of its arguments, and lists `ss`
whose minimum length is `m` (so `ss` is not empty), the factory builds the map object of
`fn` over `ss`, `Iterate` on it gives a fresh iterator, and `m + 1` `Next` calls on that
iterator yield exactly `f(s_1[i], ..., s_n[i])` for `i = 0 .. m-1` in that order, the call
number `m + 1` reporting end-of-sequence. -/
theorem map_yields_rows_up_to_shortest (N : HostNum) (name : String) (fn : Value)
    (f : List Value → Value)
    (call : Option Value → List Value → Heap → Except Panic (Except Error Value × Heap))
    (hfn : fn.isCallable = true)
    (hcall : ∀ args h, ∃ h1, call (some fn) args h = .ok (.ok (f args), h1))
    (ss : List (List Value)) (m : Nat) (hm : ∀ l ∈ ss, m ≤ l.length)
    (hex : ∃ l ∈ ss, l.length = m) (h : Heap) :
    ∃ it0 itm hm1,
      map_ name (fn :: ss.map Value.list) [] = .ok (.ok (mapOfLists fn ss)) ∧
      mapObject.Iterate (starHost N call) (mapOfLists fn ss) h = .ok (it0, h) ∧
      mapIter.drain (starHost N call) (m + 1) it0 h =
        .ok ((List.range m).map (fun i => f (ss.map (fun l => l.getD i Value.none))),
          true, itm, hm1) := by
  have hmap : map_ name (fn :: ss.map Value.list) [] = .ok (.ok (mapOfLists fn ss)) := by
    have hne : ss.map Value.list ≠ [] := by
      obtain ⟨l, hl, _⟩ := hex
      intro hnil
      rw [List.map_eq_nil_iff] at hnil
      rw [hnil] at hl
      cases hl
    have hit : ∀ v ∈ ss.map Value.list, v.isIterable = true := by
      intro v hv
      obtain ⟨l, _, rfl⟩ := List.mem_map.mp hv
      rfl
    rw [(map__of_nonempty name fn (ss.map Value.list) []).2.2.2.2 rfl hne hfn hit]
    simp [mapOfLists, Function.comp]
  obtain ⟨pre, l, post, hss, hl, hpre⟩ := exists_first_shortest m ss hm hex
  subst hss
  subst hl
  have hpost : ∀ q ∈ post, l.length ≤ q.length := fun q hq =>
    hm q (List.mem_append_right _ (List.mem_cons_of_mem _ hq))
  obtain ⟨h1, hd⟩ := mapIter.drain_listIters N call fn f hcall pre post l hpre hpost l.length
    0 [] h (by omega)
  rw [← List.range_eq_range'] at hd
  exact ⟨_, _, h1, hmap, mapObject.Iterate_mapOfLists N call fn h _, hd⟩

theorem map_yields_rows_up_to_shortest_witness :
    ∃ it0 itm hm1,
      map_ "map" (Value.builtin "add" ::
          [[Value.int 1, .int 2, .int 3], [.int 10, .int 20]].map Value.list) [] =
        .ok (.ok (mapOfLists (.builtin "add")
          [[.int 1, .int 2, .int 3], [.int 10, .int 20]])) ∧
      mapObject.Iterate (starHost refNum (pureCall sumInts))
          (mapOfLists (.builtin "add") [[.int 1, .int 2, .int 3], [.int 10, .int 20]])
          emptyHeap = .ok (it0, emptyHeap) ∧
      mapIter.drain (starHost refNum (pureCall sumInts)) (2 + 1) it0 emptyHeap =
        .ok ((List.range 2).map (fun i => sumInts
            ([[Value.int 1, .int 2, .int 3], [.int 10, .int 20]].map
              (fun l => l.getD i Value.none))),
          true, itm, hm1) :=
  map_yields_rows_up_to_shortest refNum "map" (.builtin "add") sumInts (pureCall sumInts) rfl
    (fun _ h => ⟨h, rfl⟩) [[.int 1, .int 2, .int 3], [.int 10, .int 20]] 2 (by simp)
    ⟨[.int 10, .int 20], by simp, rfl⟩ emptyHeap

/-- C5, as stated, fails: for `map(add, [1,2,3], [10,20])` three `Next` calls yield the two
values and report end-of-sequence, and by then the sub-iterator of the first source stands at
index 3: the third call has pulled its element `3` before it found the second source
exhausted. -/
theorem map_pulls_first_source_past_shortest :
    mapObject.Iterate (starHost refNum (pureCall sumInts))
        (mapOfLists (.builtin "add") [[.int 1, .int 2, .int 3], [.int 10, .int 20]])
        emptyHeap =
      .ok ({ function := some (.builtin "add"),
             iterators := [.listIterator [.int 1, .int 2, .int 3] 0,
               .listIterator [.int 10, .int 20] 0],
             buf := [] }, emptyHeap) ∧
    mapIter.drain (starHost refNum (pureCall sumInts)) 3
        { function := some (.builtin "add"),
          iterators := [.listIterator [.int 1, .int 2, .int 3] 0,
            .listIterator [.int 10, .int 20] 0],
          buf := [] } emptyHeap =
      .ok ([.int 11, .int 22], true,
        { function := some (.builtin "add"),
          iterators := [.listIterator [.int 1, .int 2, .int 3] 3,
            .listIterator [.int 10, .int 20] 2],
          buf := [.int 3] }, emptyHeap) ∧
    (SubIter.listIterator [.int 1, .int 2, .int 3] 3).pulled = [.int 1, .int 2, .int 3] :=
  ⟨rfl, rfl, rfl⟩

/-- C5, amended: for a callable that never fails and list sources `pre ++ l :: post`, where
`l` is the first source of the minimum length `m`, the `m + 1` `Next` calls that yield the
`m` values and report end-of-sequence have pulled exactly the elements `0 .. m-1` from `l`
and from every source after it, and exactly the elements `0 .. m` from every source before
it: nothing at or beyond `m` from `l` or a later source, nothing beyond `m` anywhere. -/
theorem map_stop_pulls_only_earlier_sources (N : HostNum) (fn : Value)
    (f : List Value → Value)
    (call : Option Value → List Value → Heap → Except Panic (Except Error Value × Heap))
    (hcall : ∀ args h, ∃ h1, call (some fn) args h = .ok (.ok (f args), h1))
    (pre post : List (List Value)) (l : List Value)
    (hpre : ∀ p ∈ pre, l.length < p.length) (hpost : ∀ q ∈ post, l.length ≤ q.length)
    (h : Heap) :
    ∃ it0 vs it1 h1,
      mapObject.Iterate (starHost N call) (mapOfLists fn (pre ++ l :: post)) h = .ok (it0, h) ∧
      mapIter.drain (starHost N call) (l.length + 1) it0 h = .ok (vs, true, it1, h1) ∧
      vs.length = l.length ∧
      it1.iterators.map SubIter.pulled =
        pre.map (fun p => p.take (l.length + 1)) ++ (l :: post).map (fun q => q.take l.length) := by
  obtain ⟨h1, hd⟩ := mapIter.drain_listIters N call fn f hcall pre post l hpre hpost l.length
    0 [] h (by omega)
  refine ⟨_, _, _, h1, mapObject.Iterate_mapOfLists N call fn h _, hd, by simp, ?_⟩
  simp only [List.map_append, pulled_listIters_eq]

theorem map_stop_pulls_only_earlier_sources_witness :
    ∃ it0 vs it1 h1,
      mapObject.Iterate (starHost refNum (pureCall sumInts))
          (mapOfLists (.builtin "add")
            ([[.int 1, .int 2, .int 3]] ++ [.int 10, .int 20] :: [[.int 7, .int 8, .int 9]]))
          emptyHeap = .ok (it0, emptyHeap) ∧
      mapIter.drain (starHost refNum (pureCall sumInts))
          ([Value.int 10, Value.int 20].length + 1) it0 emptyHeap =
        .ok (vs, true, it1, h1) ∧
      vs.length = [Value.int 10, Value.int 20].length ∧
      it1.iterators.map SubIter.pulled =
        [[Value.int 1, .int 2, .int 3]].map
            (fun p => p.take ([Value.int 10, Value.int 20].length + 1)) ++
          ([.int 10, .int 20] :: [[.int 7, .int 8, .int 9]]).map
            (fun q => q.take [Value.int 10, Value.int 20].length) :=
  map_stop_pulls_only_earlier_sources refNum (.builtin "add") sumInts (pureCall sumInts)
    (fun _ h => ⟨h, rfl⟩) [[.int 1, .int 2, .int 3]] [[.int 7, .int 8, .int 9]]
    [.int 10, .int 20] (by simp) (by simp) emptyHeap

/-- C6: in a `Next` call on a map iterator whose sub-iterators are `pre ++ iter :: post`,
where each of `pre`, called once in declared order, gives a value and `iter` then reports
exhaustion, the call returns end-of-sequence; afterwards the sub-iterators of `pre` are as
their one call left them, `iter` is as its call left it, those of `post` are untouched, and
the store is the one `iter` left. This holds whatever the host call `call1` would do, so the
callable is not invoked. -/
theorem map_next_stops_at_first_exhausted {σ ι : Type} (H : Host σ ι) (fn : Option Value)
    (pre pre1 post : List ι) (iter iter1 : ι) (s s1 s2 : σ) (xs buf0 : List Value)
    (hp : mapIter.Pulled H.Next pre s xs pre1 s1)
    (hn : H.Next iter s1 = .ok (none, iter1, s2))
    (call1 : Option Value → List Value → σ → Except Panic (Except Error Value × σ)) :
    mapIter.Next { H with Call := call1 }
        { function := fn, iterators := pre ++ iter :: post, buf := buf0 } s =
      .ok (none, { function := fn, iterators := pre1 ++ iter1 :: post, buf := xs }, s2) := by
  have hs := mapIter.pull_stop { H with Call := call1 } hp hn post []
  simp only [mapIter.Next, hs, List.nil_append]

theorem map_next_stops_at_first_exhausted_witness :
    mapIter.Next { starHost refNum (pureCall sumInts) with Call := pureCall firstArg }
        { function := some (.builtin "add"),
          iterators := [SubIter.listIterator [.int 1, .int 2, .int 3] 2] ++
            SubIter.listIterator [.int 10, .int 20] 2 :: [SubIter.listIterator [.int 7] 0],
          buf := [.int 2, .int 20] } emptyHeap =
      .ok (none,
        { function := some (.builtin "add"),
          iterators := [SubIter.listIterator [.int 1, .int 2, .int 3] 3] ++
            SubIter.listIterator [.int 10, .int 20] 2 :: [SubIter.listIterator [.int 7] 0],
          buf := [.int 3] }, emptyHeap) :=
  map_next_stops_at_first_exhausted (starHost refNum (pureCall sumInts))
    (some (.builtin "add")) [.listIterator [.int 1, .int 2, .int 3] 2]
    [.listIterator [.int 1, .int 2, .int 3] 3] [.listIterator [.int 7] 0]
    (.listIterator [.int 10, .int 20] 2) (.listIterator [.int 10, .int 20] 2)
    emptyHeap emptyHeap emptyHeap [.int 3] [.int 2, .int 20]
    (mapIter.Pulled.cons rfl (mapIter.Pulled.nil _)) rfl (pureCall firstArg)

/-- C7: once `Freeze` has been called on a count object, in whatever state the store is (so
after any number of earlier `Next` calls), every `Next` made afterwards, in any number and on
either of two iterators of the object in any order, reports end-of-sequence and emits
nothing, and the store (current value and step included) stays as `Freeze` left it. -/
theorem count_next_after_freeze (N : HostNum) (a : Nat) (h : Heap) (sched : List Bool) :
    countIter.interleave N (countObject.Iterate a) (countObject.Iterate a) sched
        (countObject.Freeze a h) =
      .ok (List.replicate sched.length none, countObject.Freeze a h) := by
  induction sched with
  | nil => rfl
  | cons b sched ih =>
    have hn : ∀ c : countIter, c.co = a →
        countIter.Next N c (countObject.Freeze a h) = .ok (none, countObject.Freeze a h) := by
      intro c hc
      exact countIter.Next_frozen N c _ (by rw [hc]; exact countObject.Freeze_frozen a h)
    simp only [countIter.interleave, ite_self, hn (countObject.Iterate a) rfl, ih,
      List.length_cons, List.replicate_succ]

/-- C8: two iterators obtained from one count object by two `Iterate` calls share its
cursor. Whatever the order `sched` in which `Next` calls are made on the two, the results
are those of one iterator making all the calls, so the `i`-th call overall emits the `i`-th
value of the progression; for an unfrozen object with integer current value `start` and
integer step `step` the call number `k+1` overall emits `start + k*step`, each position of
the progression once. -/
theorem count_iterators_share_cursor (N : HostNum) (a : Nat) (h : Heap) (sched : List Bool)
    (start step : Int) :
    countIter.interleave N (countObject.Iterate a) (countObject.Iterate a) sched h =
      countIter.nexts N (countObject.Iterate a) sched.length h ∧
    countIter.interleave N (countObject.Iterate a) (countObject.Iterate a) sched
        (h.set a (intCount start step false)) =
      .ok ((List.range sched.length).map
          (fun (k : Nat) => some (Value.intPtr (start + (k : Int) * step))),
        h.set a (intCount (start + (sched.length : Int) * step) step false)) := by
  refine ⟨countIter.interleave_same N _ sched h, ?_⟩
  rw [countIter.interleave_same]
  have := countIter.nexts_intCount N (countObject.Iterate a) sched.length
    (h.set a (intCount start step false)) start step (Heap.set_objs_same _ _ _)
  simpa [Heap.set_set, countObject.Iterate] using this

/-- C9, as stated, fails: `count()` builds the count object at address 0; two `Iterate`
calls on `map(f, <that object>)`, with `f` giving back its argument, return iterators whose
sub-iterators both point to that object. The first iterator alone yields 0 then 1; with one
`Next` on the second iterator in between it yields 0 then 2. -/
theorem map_iterators_over_count_interfere :
    count_ [] [] emptyHeap = .ok (.count 0, (emptyHeap.alloc (intCount 0 1 false)).2) ∧
    mapObject.Iterate (starHost refNum (pureCall firstArg))
        { function := some (.builtin "f"), iterables := [some (.count 0)] }
        (emptyHeap.alloc (intCount 0 1 false)).2 =
      .ok ({ function := some (.builtin "f"), iterators := [.countIter { co := 0 }], buf := [] },
        (emptyHeap.alloc (intCount 0 1 false)).2) ∧
    (mapIter.nexts (starHost refNum (pureCall firstArg)) 2
        { function := some (.builtin "f"), iterators := [.countIter { co := 0 }], buf := [] }
        (emptyHeap.alloc (intCount 0 1 false)).2).map (fun r => r.1) =
      .ok [some (.intPtr 0), some (.intPtr 1)] ∧
    (mapIter.interleave (starHost refNum (pureCall firstArg)) [false, true, false]
        { function := some (.builtin "f"), iterators := [.countIter { co := 0 }], buf := [] }
        { function := some (.builtin "f"), iterators := [.countIter { co := 0 }], buf := [] }
        (emptyHeap.alloc (intCount 0 1 false)).2).map (fun r => (r.1, r.2.1)) =
      .ok ([some (.intPtr 0), some (.intPtr 2)], [some (.intPtr 1)]) :=
  ⟨rfl, rfl, rfl, rfl⟩

/-- C9, amended: for a map object whose sources are lists and a callable that leaves the
store alone (it may fail), two iterators obtained by two `Iterate` calls are independent
cursors: whatever the order `sched` of `Next` calls on the two, each iterator gives the
results, and ends in the state, that it gives when it alone is called that many times. -/
theorem map_iterators_over_lists_independent (N : HostNum)
    (call : Option Value → List Value → Heap → Except Panic (Except Error Value × Heap))
    (hcall : ∀ fnc args h, ∃ r, call fnc args h = .ok (r, h))
    (fn : Value) (ss : List (List Value)) (h : Heap) (sched : List Bool) :
    ∃ it0 rs qs f1 g1,
      mapObject.Iterate (starHost N call) (mapOfLists fn ss) h = .ok (it0, h) ∧
      mapIter.interleave (starHost N call) sched it0 it0 h = .ok (rs, qs, f1, g1, h) ∧
      mapIter.nexts (starHost N call) (sched.count false) it0 h = .ok (rs, f1, h) ∧
      mapIter.nexts (starHost N call) (sched.count true) it0 h = .ok (qs, g1, h) := by
  have hl : ∀ it ∈ listIters ss 0, it.isList = true := by
    intro it hit
    simp only [listIters, List.mem_map] at hit
    obtain ⟨l, _, rfl⟩ := hit
    rfl
  obtain ⟨rs, qs, f1, g1, hi, h1, h2⟩ :=
    mapIter.interleave_lists N call hcall h sched
      { function := some fn, iterators := listIters ss 0, buf := [] }
      { function := some fn, iterators := listIters ss 0, buf := [] } hl hl
  exact ⟨_, rs, qs, f1, g1, mapObject.Iterate_mapOfLists N call fn h ss, hi, h1, h2⟩

theorem map_iterators_over_lists_independent_witness :
    ∃ it0 rs qs f1 g1,
      mapObject.Iterate (starHost refNum (pureCall sumInts))
          (mapOfLists (.builtin "add") [[.int 1, .int 2, .int 3], [.int 10, .int 20]])
          emptyHeap = .ok (it0, emptyHeap) ∧
      mapIter.interleave (starHost refNum (pureCall sumInts)) [false, true, false] it0 it0
          emptyHeap = .ok (rs, qs, f1, g1, emptyHeap) ∧
      mapIter.nexts (starHost refNum (pureCall sumInts)) ([false, true, false].count false)
          it0 emptyHeap = .ok (rs, f1, emptyHeap) ∧
      mapIter.nexts (starHost refNum (pureCall sumInts)) ([false, true, false].count true)
          it0 emptyHeap = .ok (qs, g1, emptyHeap) :=
  map_iterators_over_lists_independent refNum (pureCall sumInts) (fun _ _ _ => ⟨_, rfl⟩)
    (.builtin "add") [[.int 1, .int 2, .int 3], [.int 10, .int 20]] emptyHeap
    [false, true, false]

/-- C11: every successful call of the count factory returns a new object that is unfrozen,
whose current value is the first argument when it is given and the exact integer 0 when it
is not, and whose step is the second argument when it is given and the exact integer 1 when
it is not; a defaulted value has the integer variant set and the float variant unset,
whatever the kind of the other argument. -/
theorem count__builds_unfrozen_with_integer_defaults (args : List Value)
    (kwargs : List (Value × Value)) (h h1 : Heap) (v : Value)
    (hok : count_ args kwargs h = .ok (v, h1)) :
    ∃ a, v = .count a ∧
      h1.objs a = { cnt := floatOrInt.ofArg 0 (args.get? 0),
                    step := floatOrInt.ofArg 1 (args.get? 1), frozen := false } ∧
      (args.length < 1 → (h1.objs a).cnt = { f_ := none, i_ := some 0 }) ∧
      (args.length < 2 → (h1.objs a).step = { f_ := none, i_ := some 1 }) := by
  obtain ⟨hv, hh⟩ := count__ok args kwargs h h1 v hok
  refine ⟨h.next, hv, ?_, ?_, ?_⟩
  · rw [hh, Heap.alloc_objs]
  · intro hlen
    rw [hh, Heap.alloc_objs]
    have : args.get? 0 = none := List.get?_eq_none.mpr (by omega)
    rw [this]
    rfl
  · intro hlen
    rw [hh, Heap.alloc_objs]
    have : args.get? 1 = none := List.get?_eq_none.mpr (by omega)
    rw [this]
    rfl

theorem count__builds_unfrozen_with_integer_defaults_witness :
    ∃ a, Value.count 0 = .count a ∧
      (emptyHeap.alloc { cnt := { f_ := some half },
                         step := { i_ := some 1 } }).2.objs a =
        { cnt := floatOrInt.ofArg 0 ([Value.float half].get? 0),
          step := floatOrInt.ofArg 1 ([Value.float half].get? 1),
          frozen := false } ∧
      ([Value.float half].length < 1 →
        ((emptyHeap.alloc { cnt := { f_ := some half },
                            step := { i_ := some 1 } }).2.objs a).cnt =
          { f_ := none, i_ := some 0 }) ∧
      ([Value.float half].length < 2 →
        ((emptyHeap.alloc { cnt := { f_ := some half },
                            step := { i_ := some 1 } }).2.objs a).step =
          { f_ := none, i_ := some 1 }) :=
  count__builds_unfrozen_with_integer_defaults [.float half] []
    emptyHeap _ (.count 0) rfl

/-- C12, as stated, fails: `count(1, 0.5)` (the float `0.5` as its bit pattern) builds an
object with an integer current value and a float step, and the first `Next` on it emits the
integer 1, not a float. -/
theorem count_first_value_keeps_kind_of_start :
    count_ [.int 1, .float half] [] emptyHeap =
      .ok (.count 0, (emptyHeap.alloc intHalfCount).2) ∧
    (countIter.nexts refNum (countObject.Iterate 0) 1
        (emptyHeap.alloc intHalfCount).2).map (fun r => r.1) =
      .ok [some (.intPtr 1)] ∧
    (Value.intPtr 1).isFloatKind = false ∧ (Value.intPtr 1).isIntKind = true :=
  ⟨rfl, rfl, rfl, rfl⟩

/-- C12, amended: for every object built by the count factory and every `n`, the first `n`
`Next` calls all emit a value; the first value (`k = 0`) is of float kind exactly when
`start` is a float, and every later value (`k ≥ 1`) is of float kind exactly when `start` or
`step` is a float; a value that is not of float kind is an exact integer. -/
theorem count_value_kinds (N : HostNum) (args : List Value) (kwargs : List (Value × Value))
    (h h1 : Heap) (a : Nat) (hok : count_ args kwargs h = .ok (.count a, h1)) (n : Nat) :
    ∃ rs hn, countIter.nexts N (countObject.Iterate a) n h1 = .ok (rs, hn) ∧ rs.length = n ∧
      ∀ k, k < n → ∃ v, rs.get? k = some (some v) ∧
        v.isFloatKind = (if k = 0 then Value.argIsFloat (args.get? 0)
          else (Value.argIsFloat (args.get? 0) || Value.argIsFloat (args.get? 1))) ∧
        v.isIntKind = !v.isFloatKind := by
  obtain ⟨hobj, hc, hs⟩ := count__ok_valid args kwargs h h1 a hok
  have hf : (h1.objs (countObject.Iterate a).co).frozen = false := by
    show (h1.objs a).frozen = false
    rw [hobj]
  obtain ⟨rs, hn, hrs, hlen, hk⟩ :=
    countIter.nexts_unfrozen N (countObject.Iterate a) n h1 hf hc hs
  refine ⟨rs, hn, hrs, hlen, ?_⟩
  intro k hkn
  obtain ⟨v, hv, hkind, hint⟩ := hk k hkn
  refine ⟨v, hv, ?_, hint⟩
  rw [hkind]
  show (if k = 0 then (h1.objs a).cnt.f_.isSome
    else ((h1.objs a).cnt.f_.isSome || (h1.objs a).step.f_.isSome)) = _
  rw [hobj]
  simp only [floatOrInt.ofArg_isFloat]

theorem count_value_kinds_witness :
    ∃ rs hn, countIter.nexts refNum (countObject.Iterate 0) 3
        (emptyHeap.alloc intHalfCount).2 = .ok (rs, hn) ∧
      rs.length = 3 ∧
      ∀ k, k < 3 → ∃ v, rs.get? k = some (some v) ∧
        v.isFloatKind = (if k = 0
          then Value.argIsFloat
            ([Value.int 1, .float half].get? 0)
          else (Value.argIsFloat
              ([Value.int 1, .float half].get? 0) ||
            Value.argIsFloat
              ([Value.int 1, .float half].get? 1))) ∧
        v.isIntKind = !v.isFloatKind :=
  count_value_kinds refNum [.int 1, .float half] [] emptyHeap _ 0
    rfl 3

/-- C13: on a count object that the code can reach (built by the factory, then advanced or
not) and that is not frozen, any number `n` of `Next` calls all return a value and none
panics: `add` never takes its error branch, so the sequence does not end on its own. -/
theorem count_next_never_ends_unfrozen (N : HostNum) (c : countIter) (h : Heap)
    (hr : countObject.Reachable N (h.objs c.co)) (hf : (h.objs c.co).frozen = false)
    (n : Nat) :
    ∃ rs hn, countIter.nexts N c n h = .ok (rs, hn) ∧ rs.length = n ∧
      (∀ r ∈ rs, r.isSome = true) ∧
      ∃ cnt1, floatOrInt.add N (h.objs c.co).cnt (h.objs c.co).step = .ok cnt1 := by
  obtain ⟨hc, hs⟩ := countObject.fields_exactlyOne_of_Reachable N _ hr
  obtain ⟨rs, hn, hrs, hlen, hk⟩ := countIter.nexts_unfrozen N c n h hf hc hs
  obtain ⟨cnt1, hadd, _, _⟩ := floatOrInt.add_exactlyOne N _ _ hc hs
  refine ⟨rs, hn, hrs, hlen, ?_, cnt1, hadd⟩
  intro r hr
  obtain ⟨k, hk1⟩ := List.get?_of_mem hr
  have hkn : k < n := by
    rw [← hlen]
    by_contra hge
    rw [List.get?_eq_none.mpr (by omega)] at hk1
    cases hk1
  obtain ⟨v, hv, _, _⟩ := hk k hkn
  rw [hv] at hk1
  cases hk1
  rfl

theorem count_next_never_ends_unfrozen_witness :
    ∃ rs hn, countIter.nexts refNum (countObject.Iterate 0) 4
        (emptyHeap.alloc (intCount 0 1 false)).2 = .ok (rs, hn) ∧ rs.length = 4 ∧
      (∀ r ∈ rs, r.isSome = true) ∧
      ∃ cnt1, floatOrInt.add refNum
        (((emptyHeap.alloc (intCount 0 1 false)).2).objs (countObject.Iterate 0).co).cnt
        (((emptyHeap.alloc (intCount 0 1 false)).2).objs (countObject.Iterate 0).co).step =
          .ok cnt1 :=
  count_next_never_ends_unfrozen refNum (countObject.Iterate 0)
    (emptyHeap.alloc (intCount 0 1 false)).2
    (countObject.Reachable.built [] [] emptyHeap _ 0 rfl) rfl 4

/-- C14: in a `Next` call on a map iterator in which every sub-iterator, called once in
declared order, gives a value and the host call of the callable on those values returns an
error, `Next` returns end-of-sequence: no value and no error reach the caller, and every
sub-iterator is left as its one call advanced it. -/
theorem map_next_callable_failure_reported_as_end {σ ι : Type} (H : Host σ ι)
    (fn : Option Value) (its its1 : List ι) (s s1 s2 : σ) (xs buf0 : List Value) (e : Error)
    (hp : mapIter.Pulled H.Next its s xs its1 s1)
    (hc : H.Call fn xs s1 = .ok (.error e, s2)) :
    mapIter.Next H { function := fn, iterators := its, buf := buf0 } s =
      .ok (none, { function := fn, iterators := its1, buf := xs }, s2) := by
  have hs := mapIter.pull_of_pulled H hp []
  simp only [mapIter.Next, hs, List.nil_append, hc]

theorem map_next_callable_failure_reported_as_end_witness :
    mapIter.Next (starHost refNum failOnTwo)
        { function := some (.builtin "f"),
          iterators := [SubIter.listIterator [.int 1, .int 2, .int 3] 1], buf := [.int 1] }
        emptyHeap =
      .ok (none,
        { function := some (.builtin "f"),
          iterators := [SubIter.listIterator [.int 1, .int 2, .int 3] 2], buf := [.int 2] },
        emptyHeap) :=
  map_next_callable_failure_reported_as_end (starHost refNum failOnTwo)
    (some (.builtin "f")) [.listIterator [.int 1, .int 2, .int 3] 1]
    [.listIterator [.int 1, .int 2, .int 3] 2] emptyHeap emptyHeap emptyHeap [.int 2]
    [.int 1] (.text "two") (mapIter.Pulled.cons rfl (mapIter.Pulled.nil _)) rfl

/-- C15: take a map iterator from `Iterate` and make any number `n` of `Next` calls on it
(none, some, up to a short-circuit or beyond it), in the host that records `Done` calls.
One `Done` call on the map iterator then adds to the record exactly the sub-iterators the
iterator holds, each once and in declared order, and these are the sub-iterators `Iterate`
obtained, one per source; no `Done` call was recorded before. -/
theorem map_done_calls_done_on_each_sub_iterator_once (N : HostNum)
    (call : Option Value → List Value → Heap → Except Panic (Except Error Value × Heap))
    (m : mapObject) (s s0 s1 : Heap × List SubIter) (it0 f : mapIter SubIter) (n : Nat)
    (rs : List (Option Value))
    (hI : mapObject.Iterate (starHost N call).withDoneLog m s = .ok (it0, s0))
    (hN : mapIter.nexts (starHost N call).withDoneLog n it0 s0 = .ok (rs, f, s1)) :
    mapIter.Done (starHost N call).withDoneLog f s1 = .ok (f, (s1.1, s.2 ++ f.iterators)) ∧
    s1.2 = s.2 ∧
    f.iterators.map SubIter.origin = it0.iterators ∧
    it0.iterators.length = m.iterables.length := by
  unfold mapObject.Iterate at hI
  cases hl : mapObject.iterateLoop (starHost N call).withDoneLog m.iterables s with
  | error e => simp [hl] at hI
  | ok p =>
    obtain ⟨its, s2⟩ := p
    obtain ⟨hlog0, horig0, hlen0⟩ :=
      mapObject.iterateLoop_withDoneLog_frame N call m.iterables s s2 its hl
    simp [hl] at hI
    obtain ⟨h1, h2⟩ := hI
    subst h1; subst h2
    obtain ⟨hlog, horig⟩ := mapIter.nexts_withDoneLog_frame N call n _ f _ s1 rs hN
    refine ⟨?_, hlog.trans hlog0, horig.trans horig0, hlen0⟩
    simp only [mapIter.Done, mapIter.doneLoop_withDoneLog, hlog, hlog0]

theorem map_done_calls_done_on_each_sub_iterator_once_witness :
    mapIter.Done (starHost refNum (pureCall sumInts)).withDoneLog
        { function := some (.builtin "add"),
          iterators := [SubIter.listIterator [.int 1, .int 2, .int 3] 3,
            SubIter.listIterator [.int 10, .int 20] 2],
          buf := [.int 3] } (emptyHeap, []) =
      .ok ({ function := some (.builtin "add"),
             iterators := [SubIter.listIterator [.int 1, .int 2, .int 3] 3,
               SubIter.listIterator [.int 10, .int 20] 2],
             buf := [.int 3] },
        ((emptyHeap, ([] : List SubIter)).1,
          (emptyHeap, ([] : List SubIter)).2 ++
            [SubIter.listIterator [.int 1, .int 2, .int 3] 3,
              SubIter.listIterator [.int 10, .int 20] 2])) ∧
    (emptyHeap, ([] : List SubIter)).2 = (emptyHeap, ([] : List SubIter)).2 ∧
    [SubIter.listIterator [.int 1, .int 2, .int 3] 3,
        SubIter.listIterator [.int 10, .int 20] 2].map SubIter.origin =
      [SubIter.listIterator [.int 1, .int 2, .int 3] 0,
        SubIter.listIterator [.int 10, .int 20] 0] ∧
    [SubIter.listIterator [.int 1, .int 2, .int 3] 0,
        SubIter.listIterator [.int 10, .int 20] 0].length =
      (mapOfLists (.builtin "add")
        [[.int 1, .int 2, .int 3], [.int 10, .int 20]]).iterables.length :=
  map_done_calls_done_on_each_sub_iterator_once refNum (pureCall sumInts)
    (mapOfLists (.builtin "add") [[.int 1, .int 2, .int 3], [.int 10, .int 20]])
    (emptyHeap, []) (emptyHeap, []) (emptyHeap, [])
    { function := some (.builtin "add"),
      iterators := [.listIterator [.int 1, .int 2, .int 3] 0,
        .listIterator [.int 10, .int 20] 0],
      buf := [] }
    { function := some (.builtin "add"),
      iterators := [.listIterator [.int 1, .int 2, .int 3] 3,
        .listIterator [.int 10, .int 20] 2],
      buf := [.int 3] }
    3 [some (.int 11), some (.int 22), none] rfl rfl

/-- C16: a union obtained by one successful `Unpack` into a default-initialised union, or
from such unions by any sequence of successful `add` calls, has exactly one of its two
variants set; and so have the current value and the step of every count object the code can
reach. -/
theorem numeric_union_has_exactly_one_variant (N : HostNum) :
    (∀ fi, floatOrInt.Reachable N fi → fi.exactlyOne = true) ∧
    (∀ co, countObject.Reachable N co →
      co.cnt.exactlyOne = true ∧ co.step.exactlyOne = true) :=
  ⟨floatOrInt.exactlyOne_of_Reachable N, countObject.fields_exactlyOne_of_Reachable N⟩

theorem numeric_union_has_exactly_one_variant_witness :
    ({ f_ := none, i_ := some 3 } : floatOrInt).exactlyOne = true ∧
    ((intCount 0 1 false).cnt.exactlyOne = true ∧ (intCount 0 1 false).step.exactlyOne = true) :=
  ⟨(numeric_union_has_exactly_one_variant refNum).1 _
      (floatOrInt.Reachable.unpack (.int 3) { f_ := none, i_ := some 3 } rfl),
    (numeric_union_has_exactly_one_variant refNum).2 _
      (countObject.Reachable.built [] [] emptyHeap
        (emptyHeap.alloc (intCount 0 1 false)).2 0 rfl)⟩

/-- C18: `Freeze` sets `frozen` on the object and changes neither its current value nor its
step, leaves every other object and the allocation pointer as they are, and a second
`Freeze` changes nothing at all. -/
theorem Freeze_sets_frozen_and_is_idempotent (a : Nat) (h : Heap) :
    (countObject.Freeze a h).objs a = { h.objs a with frozen := true } ∧
    ((countObject.Freeze a h).objs a).cnt = (h.objs a).cnt ∧
    ((countObject.Freeze a h).objs a).step = (h.objs a).step ∧
    ((countObject.Freeze a h).objs a).frozen = true ∧
    (∀ b, b ≠ a → (countObject.Freeze a h).objs b = h.objs b) ∧
    (countObject.Freeze a h).next = h.next ∧
    countObject.Freeze a (countObject.Freeze a h) = countObject.Freeze a h := by
  have hobj := countObject.Freeze_objs a h
  refine ⟨hobj, by rw [hobj], by rw [hobj], by rw [hobj], ?_, ?_, ?_⟩
  · intro b hb
    unfold countObject.Freeze
    split
    · simp [Heap.set, Function.update_noteq hb]
    · rfl
  · unfold countObject.Freeze
    split <;> rfl
  · exact countObject.Freeze_of_frozen a _ (countObject.Freeze_frozen a h)

/-- C19: end-of-sequence from a map iterator is not final. First, for a callable that fails
on the argument 2 and the source `[1, 2, 3]`, three `Next` calls give the value 1, then
end-of-sequence, then the value 3. Second, in a state where a list source `l` is exhausted
and every source before it has at least two more elements (as after a short-circuit on
`l`), two `Next` calls both report end-of-sequence and each pulls one further element from
every source before `l`: those sub-iterators go from index `i` to `i + 2`, the others stay. -/
theorem map_end_of_sequence_is_not_sticky (N : HostNum)
    (call : Option Value → List Value → Heap → Except Panic (Except Error Value × Heap))
    (fn : Option Value) (i k : Nat) (h : Heap) (pre : List (List Value)) (l : List Value)
    (postIts : List SubIter) (buf : List Value)
    (hpre : ∀ p ∈ pre, i + 1 < p.length) (hl : l.length ≤ k) :
    (mapIter.nexts (starHost refNum failOnTwo) 3
        { function := some (.builtin "f"),
          iterators := [SubIter.listIterator [.int 1, .int 2, .int 3] 0], buf := [] }
        emptyHeap =
      .ok ([some (.int 1), none, some (.int 3)],
        { function := some (.builtin "f"),
          iterators := [SubIter.listIterator [.int 1, .int 2, .int 3] 3], buf := [.int 3] },
        emptyHeap)) ∧
    mapIter.nexts (starHost N call) 2
        { function := fn, iterators := listIters pre i ++ SubIter.listIterator l k :: postIts,
          buf := buf } h =
      .ok ([none, none],
        { function := fn,
          iterators := listIters pre (i + 2) ++ SubIter.listIterator l k :: postIts,
          buf := row pre (i + 1) }, h) := by
  refine ⟨rfl, ?_⟩
  have h1 := mapIter.Next_mixed_stop N call fn i k h pre l postIts
    (fun p hp => Nat.lt_of_succ_lt (hpre p hp)) hl buf
  have h2 := mapIter.Next_mixed_stop N call fn (i + 1) k h pre l postIts hpre hl (row pre i)
  simp only [mapIter.nexts, h1, h2]

theorem map_end_of_sequence_is_not_sticky_witness :
    (mapIter.nexts (starHost refNum failOnTwo) 3
        { function := some (.builtin "f"),
          iterators := [SubIter.listIterator [.int 1, .int 2, .int 3] 0], buf := [] }
        emptyHeap =
      .ok ([some (.int 1), none, some (.int 3)],
        { function := some (.builtin "f"),
          iterators := [SubIter.listIterator [.int 1, .int 2, .int 3] 3], buf := [.int 3] },
        emptyHeap)) ∧
    mapIter.nexts (starHost refNum (pureCall sumInts)) 2
        { function := some (.builtin "add"),
          iterators := listIters [[.int 1, .int 2, .int 3, .int 4]] 1 ++
            SubIter.listIterator [.int 10] 1 :: [],
          buf := [.int 1, .int 10] } emptyHeap =
      .ok ([none, none],
        { function := some (.builtin "add"),
          iterators := listIters [[.int 1, .int 2, .int 3, .int 4]] (1 + 2) ++
            SubIter.listIterator [.int 10] 1 :: [],
          buf := row [[.int 1, .int 2, .int 3, .int 4]] (1 + 1) }, emptyHeap) :=
  map_end_of_sequence_is_not_sticky refNum (pureCall sumInts) (some (.builtin "add")) 1 1
    emptyHeap [[.int 1, .int 2, .int 3, .int 4]] [.int 10] [] [.int 1, .int 10] (by simp)
    (by simp)

end Sun
